import Mathlib

/-! Cardirector: the room core (`src/server/croom.cpp`).

A shallow embedding of `CRoom` and of the `CRoomPrivate` record behind it.

* An agent object is identified with the value of its `id()`: the server hands
  out one id per object, so comparing two `CServerUser *` is comparing ids.
  A user and a robot stay different agents even when their ids coincide.
* `QMap<uint, T *>` is a key-ordered association list.
* Everything the room does to the outside (a call on an agent, on the server,
  on its thread, a Qt signal it emits) is appended to `CRoom.calls`, oldest
  first.
* Qt connections are kept as a list with one entry per `connect`; emitting a
  signal runs the slot once per entry, `disconnect` drops every matching entry.
* State that lives in other objects and is only read by the room
  (`user->room()`, `agent->ready()`, `gameLogic->isRunning()`, the replies
  that arrive before a timeout) is an argument of the operation that reads it.
-/

namespace Cardirector

/-! ## Agents -/

/-- A `CServerUser` object, named by its `id()`. -/
structure CServerUser where
  id : Nat
  deriving DecidableEq, Repr

/-- A `CServerRobot` object, named by its `id()`. -/
structure CServerRobot where
  id : Nat
  deriving DecidableEq, Repr

/-- A `CServerAgent *`: the common base of users and robots. -/
inductive CServerAgent where
  | user (u : CServerUser)
  | robot (r : CServerRobot)
  deriving DecidableEq, Repr

/-- The `id()` of an agent. -/
def CServerAgent.id : CServerAgent → Nat
  | .user u => u.id
  | .robot r => r.id

/-- A `CAbstractGameLogic` object (a `QThread`), named by an object number. -/
structure CAbstractGameLogic where
  obj : Nat
  deriving DecidableEq, Repr

/-- The `CServer` behind the room's `QPointer`; `lobby` is the id of the room
that `server->lobby()` returns. -/
structure CServer where
  lobby : Nat
  deriving DecidableEq, Repr

/-- The fields of `CRoomSettings` that `croom.cpp` reads. -/
structure CRoomSettings where
  name : String
  capacity : Int
  timeout : Int
  deriving DecidableEq, Repr

/-! ## QMap -/

/-- A `QMap<uint, T>`: entries in ascending key order. -/
structure QMap (α : Type) where
  entries : List (Nat × α)
  deriving DecidableEq, Repr

namespace QMap

variable {α : Type}

/-- The empty map. -/
def empty : QMap α := ⟨[]⟩

/-- Insertion into the entry list: the entry goes before the first larger key
and replaces an entry with the same key. -/
def insertEntries (key : Nat) (value : α) : List (Nat × α) → List (Nat × α)
  | [] => [(key, value)]
  | (k, v) :: rest =>
    if key < k then (key, value) :: (k, v) :: rest
    else if key = k then (key, value) :: rest
    else (k, v) :: insertEntries key value rest

/-- Container call `QMap::insert(key, value)`. -/
def insert (m : QMap α) (key : Nat) (value : α) : QMap α :=
  ⟨insertEntries key value m.entries⟩

/-- Container call `QMap::remove(key)`: the map without the key, and the number of entries
removed. -/
def remove (m : QMap α) (key : Nat) : QMap α × Nat :=
  let kept := m.entries.filter (fun e => e.1 ≠ key)
  (⟨kept⟩, m.entries.length - kept.length)

/-- Container call `QMap::size()`. -/
def size (m : QMap α) : Nat := m.entries.length

/-- Container call `QMap::isEmpty()`. -/
def isEmpty (m : QMap α) : Bool := m.entries.isEmpty

/-- Container call `QMap::first()`: the value under the smallest key (`none` on an empty map,
where the C++ call is undefined). -/
def first (m : QMap α) : Option α := (m.entries.head?).map Prod.snd

/-- Container call `QMap::value(key)`: the value under `key`, `none` for the default-constructed
(null) pointer. -/
def value (m : QMap α) (key : Nat) : Option α :=
  (m.entries.find? (fun e => e.1 = key)).map Prod.snd

/-- The values in key order, as `foreach` over the map visits them. -/
def values (m : QMap α) : List α := m.entries.map Prod.snd

/-- The keys in ascending order. -/
def keys (m : QMap α) : List Nat := m.entries.map Prod.fst

end QMap

/-! ## What the room sends out -/

/-- The command codes of `cprotocol.h` used by the room. -/
inductive Command where
  | S_COMMAND_SET_USER_LIST
  | S_COMMAND_ENTER_ROOM
  | S_COMMAND_CONFIGURE_ROOM
  | S_COMMAND_ADD_USER
  | S_COMMAND_REMOVE_USER
  | S_COMMAND_ADD_ROBOT
  | S_COMMAND_REMOVE_ROBOT
  | S_COMMAND_START_GAME
  | S_COMMAND_SPEAK
  | S_COMMAND_TOGGLE_READY
  deriving DecidableEq, Repr

/-- The `QVariantMap` built by `CRoom::briefIntroduction`. -/
structure RoomInfo where
  id : Nat
  name : String
  userNum : Nat
  capacity : Int
  ownerId : Nat
  deriving DecidableEq, Repr

/-- The `QVariant` payloads the room builds. `agentInfo a` stands for
`a->briefIntroduction()` (built outside `croom.cpp`), `agentInfoList` for a
`QVariantList` of such introductions, `entry` for a one-entry `QVariantMap`. -/
inductive QVariant where
  | null
  | uint (n : Nat)
  | string (text : String)
  | agentInfo (a : CServerAgent)
  | agentInfoList (agents : List CServerAgent)
  | roomInfo (info : RoomInfo)
  | config (settings : CRoomSettings)
  | entry (name : String) (value : QVariant)
  deriving DecidableEq, Repr

/-- The Qt signals of `CRoom`. -/
inductive Signal where
  | userAdded (u : CServerUser)
  | userRemoved (u : CServerUser)
  | robotAdded (r : CServerRobot)
  | robotRemoved (r : CServerRobot)
  | abandoned
  | aboutToStart
  deriving DecidableEq, Repr

/-- How a `QSemaphore::tryAcquire(n, msec)` ended: the permits were there when
it was called, they arrived while it waited, the time ran out, or, with a
negative `msec` (Qt then waits without limit) and permits that never arrive,
the call never returns. -/
inductive WaitOutcome where
  | immediate
  | released
  | timedOut
  | never
  deriving DecidableEq, Repr

/-- One outgoing call of the room. -/
inductive Call where
  | notify (agent : CServerAgent) (command : Command) (data : QVariant)
  | setRoom (agent : CServerAgent)
  | setReplyReadySemaphore (agent : CServerAgent)
  | executeRequest (agent : CServerAgent) (timeout : Int)
  | cancelRequest (agent : CServerAgent)
  | tryAcquire (n : Nat) (msec : Int) (outcome : WaitOutcome)
  | emit (signal : Signal)
  | threadQuit
  | killRobot (id : Nat)
  | robotDeleteLater (r : CServerRobot)
  | prevRoomRemoveUser (room : Nat) (u : CServerUser)
  | gameLogicDeleteLater (g : CAbstractGameLogic)
  | moveToThread (g : CAbstractGameLogic)
  deriving DecidableEq, Repr

/-- Whether the call is an `agent->notify(...)`. -/
def Call.isNotify : Call → Bool
  | .notify _ _ _ => true
  | _ => false

/-- Whether the call is an `agent->cancelRequest()`. -/
def Call.isCancel : Call → Bool
  | .cancelRequest _ => true
  | _ => false

/-- A live Qt connection with the room at one end: from an agent to a slot of
the room, or between the room and a rule engine (`aboutToStart` to the
engine's `start`, the engine's `started` to `started`, its `finished` to
`onGameOver` and to `finished`). -/
inductive Connection where
  | disconnected (u : CServerUser)
  | replyReady (a : CServerAgent)
  | aboutToStart (g : CAbstractGameLogic)
  | started (g : CAbstractGameLogic)
  | finishedOnGameOver (g : CAbstractGameLogic)
  | finished (g : CAbstractGameLogic)
  deriving DecidableEq, Repr

/-- The agent that sends over the connection, when it comes from an agent. -/
def Connection.sender : Connection → Option CServerAgent
  | .disconnected u => some (.user u)
  | .replyReady a => some a
  | _ => none

/-- The rule engine at the other end of the connection, when there is one. -/
def Connection.engine : Connection → Option CAbstractGameLogic
  | .aboutToStart g => some g
  | .started g => some g
  | .finishedOnGameOver g => some g
  | .finished g => some g
  | _ => none

/-- The id that a `server->killRobot(id)` call names. -/
def Call.killedId : Call → Option Nat
  | .killRobot id => some id
  | _ => none

/-- What `user->room()` holds when it is not null. -/
inductive RoomPtr where
  | self
  | other (roomId : Nat)
  deriving DecidableEq, Repr

/-! ## The room -/

/-- The record `CRoomPrivate` (the `QThread *` is not a value, it only shows
as `Call.threadQuit`). -/
structure CRoomPrivate where
  server : Option CServer
  id : Nat
  gameLogic : Option CAbstractGameLogic
  users : QMap CServerUser
  robots : QMap CServerRobot
  owner : Option CServerUser
  isAbandoned : Bool
  settings : CRoomSettings
  racingRequestSemaphore : Nat
  racingRequestCandidates : List CServerAgent
  racingRequestWinner : Option CServerAgent
  robotNameCode : Nat
  deriving DecidableEq, Repr

/-- A `CRoom` object: its private record, the connections that end in it and
the calls it has made so far. -/
structure CRoom where
  p_ptr : CRoomPrivate
  connections : List Connection
  calls : List Call
  deriving DecidableEq, Repr

namespace CRoom

/-- The constructor `CRoom::CRoom(server)`. `roomId` is the value of the static
counter, `settings` what `new CRoomSettings` holds, and `winner` the content of
`racingRequestWinner`, which the constructor of `CRoomPrivate` leaves
uninitialised. -/
def create (server : Option CServer) (roomId : Nat) (settings : CRoomSettings)
    (winner : Option CServerAgent) : CRoom :=
  { p_ptr :=
      { server := server
        id := roomId
        gameLogic := none
        users := QMap.empty
        robots := QMap.empty
        owner := none
        isAbandoned := false
        settings := settings
        racingRequestSemaphore := 0
        racingRequestCandidates := []
        racingRequestWinner := winner
        robotNameCode := 65 }
    connections := []
    calls := [] }

/-- Record one outgoing call. -/
def call (s : CRoom) (c : Call) : CRoom :=
  { s with calls := s.calls ++ [c] }

/-- Source function `CRoom::setOwner`. -/
def setOwner (s : CRoom) (owner : Option CServerUser) : CRoom :=
  { s with p_ptr := { s.p_ptr with owner := owner } }

/-- Source function `CRoom::owner`. -/
def owner (s : CRoom) : Option CServerUser := s.p_ptr.owner

/-- Source function `CRoom::ownerId`. -/
def ownerId (s : CRoom) : Nat :=
  match s.p_ptr.owner with
  | some o => o.id
  | none => 0

/-- Source function `CRoom::name`. -/
def name (s : CRoom) : String := s.p_ptr.settings.name

/-- Source function `CRoom::capacity`. -/
def capacity (s : CRoom) : Int := s.p_ptr.settings.capacity

/-- Source function `CRoom::setCapacity`. -/
def setCapacity (s : CRoom) (capacity : Int) : CRoom :=
  { s with p_ptr := { s.p_ptr with settings := { s.p_ptr.settings with capacity := capacity } } }

/-- The sum `users.size() + robots.size()`. -/
def occupancy (s : CRoom) : Nat := s.p_ptr.users.size + s.p_ptr.robots.size

/-- Source function `CRoom::isFull`. -/
def isFull (s : CRoom) : Bool :=
  decide (s.capacity > 0) && decide ((s.p_ptr.users.size + s.p_ptr.robots.size : Int) ≥ s.capacity)

/-- Source function `CRoom::isAbandoned`. -/
def isAbandoned (s : CRoom) : Bool := s.p_ptr.isAbandoned

/-- Source function `CRoom::findUser`. -/
def findUser (s : CRoom) (id : Nat) : Option CServerUser := s.p_ptr.users.value id

/-- Source function `CRoom::findRobot`. -/
def findRobot (s : CRoom) (id : Nat) : Option CServerRobot := s.p_ptr.robots.value id

/-- Source function `CRoom::agents`: the users in key order, then the robots in key order. -/
def agents (s : CRoom) : List CServerAgent :=
  let agents : List CServerAgent := []
  let agents := s.p_ptr.users.values.foldl (fun agents user => agents ++ [CServerAgent.user user]) agents
  let agents := s.p_ptr.robots.values.foldl (fun agents robot => agents ++ [CServerAgent.robot robot]) agents
  agents

/-- Source function `CRoom::briefIntroduction`. -/
def briefIntroduction (s : CRoom) : RoomInfo :=
  { id := match s.p_ptr.server with
      | some server => if server.lobby ≠ s.p_ptr.id then s.p_ptr.id else 0
      | none => 0
    name := s.name
    userNum := s.p_ptr.users.size + s.p_ptr.robots.size
    capacity := s.capacity
    ownerId := s.ownerId }

/-- Source function `CRoom::broadcastNotification(command, data, except)`. -/
def broadcastNotification (s : CRoom) (command : Command) (data : QVariant)
    (except : Option CServerAgent) : CRoom :=
  s.agents.foldl
    (fun s agent => if some agent ≠ except then s.call (.notify agent command data) else s) s

/-- Modelled from the spec: `croom.h`, which declares the Qt properties of the
room, is not among the sources; the only property `croom.cpp` asks for is
`ownerId`, read through `ownerId()`. -/
def property (s : CRoom) (name : String) : QVariant :=
  if name = "ownerId" then .uint s.ownerId else .null

/-- Source function `CRoom::broadcastProperty`. -/
def broadcastProperty (s : CRoom) (name : String) : CRoom :=
  let data := QVariant.entry name (s.property name)
  s.broadcastNotification .S_COMMAND_CONFIGURE_ROOM data none

/-- Source function `CRoom::unicastConfigTo`. -/
def unicastConfigTo (s : CRoom) (agent : CServerAgent) : CRoom :=
  s.call (.notify agent .S_COMMAND_CONFIGURE_ROOM (.config s.p_ptr.settings))

/-- The pair `agent->disconnect(this); this->disconnect(agent)`: every
connection from the agent to the room goes (the room has no signal wired to a
slot of an agent). -/
def disconnectAgent (s : CRoom) (agent : CServerAgent) : CRoom :=
  { s with connections := s.connections.filter (fun c => c.sender ≠ some agent) }

/-- The loop of `CRoom::addUser` that fills `userList`: one introduction per
agent, leaving the loop once `count` has reached 50. -/
def userListLoop : List CServerAgent → Nat → List CServerAgent → List CServerAgent
  | [], _, userList => userList
  | other :: rest, count, userList =>
    let userList := userList ++ [other]
    let count := count + 1
    if count ≥ 50 then userList else userListLoop rest count userList

/-- The tail of `CRoom::removeUser` after the owner check: tell the others and
emit `userRemoved`. -/
def removeUserNotify (s : CRoom) (user : CServerUser) : CRoom :=
  let s := s.broadcastNotification .S_COMMAND_REMOVE_USER (.uint user.id) (some (.user user))
  s.call (.emit (.userRemoved user))

/-- Source function `CRoom::removeUser`. -/
def removeUser (s : CRoom) (user : CServerUser) : CRoom :=
  let (users, removed) := s.p_ptr.users.remove user.id
  if removed ≠ 0 then
    let s := { s with p_ptr := { s.p_ptr with users := users } }
    let s := s.disconnectAgent (.user user)
    if some user = s.p_ptr.owner then
      if !s.p_ptr.users.isEmpty then
        let s := { s with p_ptr := { s.p_ptr with owner := s.p_ptr.users.first } }
        let s := s.broadcastProperty "ownerId"
        s.removeUserNotify user
      else
        let s := s.call (.emit .abandoned)
        let s := { s with p_ptr := { s.p_ptr with isAbandoned := true } }
        s.call .threadQuit
    else
      s.removeUserNotify user
  else
    s

/-- Source function `CRoom::addUser`. `prevRoom` is what `user->room()` returns: null, this
room, or another room (whose `removeUser` is then recorded as a call). -/
def addUser (s : CRoom) (user : CServerUser) (prevRoom : Option RoomPtr) : CRoom :=
  if s.isFull then s
  else
    let s := match prevRoom with
      | some .self => s.removeUser user
      | some (.other room) => s.call (.prevRoomRemoveUser room user)
      | none => s
    let userList := userListLoop s.agents 0 []
    let s := s.call (.notify (.user user) .S_COMMAND_SET_USER_LIST (.agentInfoList userList))
    let s := { s with p_ptr := { s.p_ptr with users := s.p_ptr.users.insert user.id user } }
    let s := s.call (.setRoom (.user user))
    let s := { s with connections := s.connections ++ [Connection.disconnected user] }
    let s := s.call (Call.notify (.user user) .S_COMMAND_ENTER_ROOM (.roomInfo s.briefIntroduction))
    let s := s.unicastConfigTo (.user user)
    let s := s.broadcastNotification .S_COMMAND_ADD_USER (.agentInfo (.user user)) (some (.user user))
    s.call (.emit (.userAdded user))

/-- Source function `CRoom::addRobot`. -/
def addRobot (s : CRoom) (robot : CServerRobot) : CRoom :=
  let s := { s with p_ptr := { s.p_ptr with robots := s.p_ptr.robots.insert robot.id robot } }
  let s := s.call (.setRoom (.robot robot))
  let s := s.broadcastNotification .S_COMMAND_ADD_ROBOT (.agentInfo (.robot robot)) none
  s.call (.emit (.robotAdded robot))

/-- Source function `CRoom::removeRobot`. -/
def removeRobot (s : CRoom) (robot : CServerRobot) : CRoom :=
  let (robots, removed) := s.p_ptr.robots.remove robot.id
  if removed ≠ 0 then
    let s := { s with p_ptr := { s.p_ptr with robots := robots } }
    let s := s.disconnectAgent (.robot robot)
    let s := s.broadcastNotification .S_COMMAND_REMOVE_ROBOT (.uint robot.id) none
    s.call (.emit (.robotRemoved robot))
  else
    s

/-- Source function `CRoom::onGameOver`: the `QMapIterator` walks the entries the robots map
had when the iterator was made. -/
def onGameOver (s : CRoom) : CRoom :=
  let s := s.p_ptr.robots.entries.foldl
    (fun s e =>
      let id := e.1
      let robot := e.2
      let s := s.removeRobot robot
      let s := if s.p_ptr.server.isSome then s.call (.killRobot id) else s
      s.call (.robotDeleteLater robot)) s
  { s with p_ptr := { s.p_ptr with robotNameCode := 65 } }

/-- Source function `CRoom::onUserDisconnected`, with the sender of the signal as argument. -/
def onUserDisconnected (s : CRoom) (sender : CServerUser) : CRoom :=
  s.removeUser sender

/-! ## The request coordinator -/

/-- The value of an `int` expression: the mathematical value brought back into
the 32-bit two-complement range, which is what the compiled multiplication
`timeout * 1000` yields when it overflows. -/
def int32 (x : Int) : Int := (x + 2147483648) % 4294967296 - 2147483648

/-- Semaphore call `QSemaphore::tryAcquire(n, msec)` on a semaphore that holds `available`
permits when the call is made and receives `arriving` more before the time is
up (ever, when `msec` is negative and the wait has no limit): how the wait
ends. -/
def semaphoreTryAcquire (available n arriving : Nat) (msec : Int) : WaitOutcome :=
  if n ≤ available then .immediate
  else if n ≤ available + arriving then .released
  else if msec < 0 then .never
  else .timedOut

/-- Source function `CRoom::broadcastRequest(targets, timeout)`. `released` is the number of
permits the targets release on the local semaphore while the call waits. When
the wait never ends (`WaitOutcome.never`) the call is stuck in `tryAcquire`:
the room is the one the wait leaves, and no `cancelRequest` follows. -/
def broadcastRequest (s : CRoom) (targets : List CServerAgent) (timeout : Int)
    (released : Nat) : CRoom :=
  let semaphore : Nat := 0
  let s := targets.foldl (fun s agent => s.call (.setReplyReadySemaphore agent)) s
  let s := targets.foldl (fun s agent => s.call (.executeRequest agent timeout)) s
  let msec := int32 (timeout * 1000)
  let outcome := semaphoreTryAcquire semaphore targets.length released msec
  let s := s.call (.tryAcquire targets.length msec outcome)
  if outcome = WaitOutcome.never then s
  else targets.foldl (fun s agent => s.call (.cancelRequest agent)) s

/-- Source function `CRoom::onAgentReplyReady`, with `sender()` as argument. -/
def onAgentReplyReady (s : CRoom) (sender : CServerAgent) : CRoom :=
  let s := { s with p_ptr := { s.p_ptr with racingRequestWinner := some sender } }
  let s := s.p_ptr.racingRequestCandidates.foldl
    (fun s agent =>
      if some agent = s.p_ptr.racingRequestWinner then s
      else
        let s := s.call (.cancelRequest agent)
        { s with connections := s.connections.filter (fun c => c ≠ Connection.replyReady agent) })
    s
  { s with p_ptr :=
      { s.p_ptr with racingRequestSemaphore := s.p_ptr.racingRequestSemaphore + 1 } }

/-- The agent emits `replyReady`: the slot `onAgentReplyReady` runs once for
every connection of that signal to the room, and not at all when there is
none. -/
def replyReady (s : CRoom) (agent : CServerAgent) : CRoom :=
  (s.connections.filter (fun c => c = Connection.replyReady agent)).foldl
    (fun s _ => s.onAgentReplyReady agent) s

/-- The part of `CRoom::broadcastRacingRequest` before the wait: store the
candidates, connect each one, ask each one. -/
def racingRequestStart (s : CRoom) (targets : List CServerAgent) (timeout : Int) : CRoom :=
  let s := { s with p_ptr := { s.p_ptr with racingRequestCandidates := targets } }
  let s := targets.foldl
    (fun s agent => { s with connections := s.connections ++ [Connection.replyReady agent] }) s
  targets.foldl (fun s user => s.call (.executeRequest user timeout)) s

/-- The wait of `CRoom::broadcastRacingRequest`: `signals` are the agents whose
`replyReady` reaches the room before the time is up (ever, when the wait has
no limit), in the order they are handled; the waiting call stops at the first
moment the semaphore holds a permit. -/
def racingRequestWait (s : CRoom) : List CServerAgent → CRoom
  | [] => s
  | agent :: rest =>
    if s.p_ptr.racingRequestSemaphore ≥ 1 then s
    else racingRequestWait (s.replyReady agent) rest

/-- Source function `CRoom::broadcastRacingRequest(targets, timeout)`: the room afterwards and
the pointer returned. The `tryAcquire` is recorded when it ends. When the wait
never ends (`WaitOutcome.never`: negative `msec` and no permit ever) the call
is stuck in `tryAcquire` and returns nothing: the room is the one the wait
leaves and the second component is `none`. -/
def broadcastRacingRequest (s : CRoom) (targets : List CServerAgent) (timeout : Int)
    (signals : List CServerAgent) : CRoom × Option CServerAgent :=
  let s := s.racingRequestStart targets timeout
  let available := s.p_ptr.racingRequestSemaphore
  let msec := int32 (timeout * 1000)
  let s := s.racingRequestWait signals
  let outcome :=
    if 1 ≤ available then WaitOutcome.immediate
    else if 1 ≤ s.p_ptr.racingRequestSemaphore then WaitOutcome.released
    else if msec < 0 then WaitOutcome.never
    else WaitOutcome.timedOut
  let s :=
    if outcome = WaitOutcome.timedOut ∨ outcome = WaitOutcome.never then s
    else { s with p_ptr :=
      { s.p_ptr with racingRequestSemaphore := s.p_ptr.racingRequestSemaphore - 1 } }
  let s := s.call (.tryAcquire 1 msec outcome)
  if outcome = WaitOutcome.never then (s, none)
  else (s, s.p_ptr.racingRequestWinner)

/-- The agents that `onAgentReplyReady` cancels when `winner` is the sender:
the candidates other than the winner, in list order. -/
def cancelled (candidates : List CServerAgent) (winner : CServerAgent) : List CServerAgent :=
  candidates.filter (fun a => decide (a ≠ winner))

/-- The `cancelRequest` calls of `k` runs of `onAgentReplyReady` with the same
sender. -/
def cancelCalls (candidates : List CServerAgent) (winner : CServerAgent) : Nat → List Call
  | 0 => []
  | k + 1 => (cancelled candidates winner).map Call.cancelRequest
      ++ cancelCalls candidates winner k

/-- The room after the slot has run `k` times for the same sender (`k ≥ 1`). -/
def afterReplies (s : CRoom) (sender : CServerAgent) (k : Nat) : CRoom :=
  { p_ptr := { s.p_ptr with
      racingRequestWinner := some sender
      racingRequestSemaphore := s.p_ptr.racingRequestSemaphore + k }
    connections := (s.connections.filter (fun c =>
      decide (c ∉ (cancelled s.p_ptr.racingRequestCandidates sender).map
        Connection.replyReady)))
    calls := (s.calls ++ cancelCalls s.p_ptr.racingRequestCandidates sender k) }

/-! ## Runs of room operations -/

end CRoom

/-- One call on the room from outside. -/
inductive Op where
  | addUser (user : CServerUser) (prevRoom : Option RoomPtr)
  | removeUser (user : CServerUser)
  | addRobot (robot : CServerRobot)
  | removeRobot (robot : CServerRobot)
  | onGameOver
  | setOwner (owner : CServerUser)
  deriving DecidableEq, Repr

namespace CRoom

/-- Apply one operation. -/
def step (s : CRoom) : Op → CRoom
  | .addUser user prevRoom => s.addUser user prevRoom
  | .removeUser user => s.removeUser user
  | .addRobot robot => s.addRobot robot
  | .removeRobot robot => s.removeRobot robot
  | .onGameOver => s.onGameOver
  | .setOwner owner => s.setOwner (some owner)

/-- Apply the operations from left to right. -/
def run (s : CRoom) (ops : List Op) : CRoom := ops.foldl step s

/-- Every room along the run: the start, then the room after each operation. -/
def states (s : CRoom) : List Op → List CRoom
  | [] => [s]
  | op :: ops => s :: states (s.step op) ops

/-- Whether the user is seated: the users map holds it under its id. -/
def seated (s : CRoom) (user : CServerUser) : Bool :=
  decide (s.findUser user.id = some user)

/-- Whether every `setOwner` of the run is called with a user seated at that
moment. -/
def ownersSeated (s : CRoom) : List Op → Bool
  | [] => true
  | .setOwner owner :: ops => s.seated owner && ownersSeated (s.setOwner (some owner)) ops
  | op :: ops => ownersSeated (s.step op) ops

/-- The seated users in the order in which they joined, kept along a run: a
successful `addUser` puts the user last, `removeUser` takes it out. This is the
"insertion order" of the specification; the room itself keeps no such list. -/
def joinOrder (s : CRoom) (order : List CServerUser) : List Op → List CServerUser
  | [] => order
  | op :: ops =>
    let order := match op with
      | .addUser user _ =>
        if s.isFull then order else order.filter (fun u => u ≠ user) ++ [user]
      | .removeUser user => order.filter (fun u => u ≠ user)
      | _ => order
    joinOrder (s.step op) order ops

/-- Whether the users map is a well-formed `QMap` filled by `addUser`: the keys
ascend strictly and every user sits under its own id. -/
def usersWellFormed (s : CRoom) : Bool :=
  decide (s.p_ptr.users.keys.Pairwise (fun a b => a < b))
    && s.p_ptr.users.entries.all (fun e => decide (e.2.id = e.1))

/-- Whether the owner is null or one of the seated users. -/
def ownerSeatedOrNull (s : CRoom) : Bool :=
  match s.p_ptr.owner with
  | none => true
  | some owner => s.seated owner

/-- Whether every `addRobot` of the run is called on a room that is not full,
the check `addUser` makes for itself. -/
def robotsGuarded (s : CRoom) : List Op → Bool
  | [] => true
  | .addRobot robot :: ops => !s.isFull && robotsGuarded (s.addRobot robot) ops
  | op :: ops => robotsGuarded (s.step op) ops

/-- The invariant of the users map and the owner that every run keeps: the
keys ascend strictly, every user sits under its own id, and unless the room
has been abandoned the owner, when there is one, is seated. -/
def ownerInvariant (p : CRoomPrivate) : Prop :=
  p.users.keys.Pairwise (fun a b => a < b)
    ∧ (∀ e ∈ p.users.entries, e.2.id = e.1)
    ∧ (p.isAbandoned = false → ∀ o, p.owner = some o → p.users.value o.id = some o)

/-! ## The rule engine, robot names and listings -/

/-- Source function `CRoom::setGameLogic`. `isRunning` is the answer of
`QThread::isRunning` for each engine at the time of the call. -/
def setGameLogic (s : CRoom) (gameLogic : CAbstractGameLogic)
    (isRunning : CAbstractGameLogic → Bool) : CRoom :=
  let guarded : Option CRoom :=
    match s.p_ptr.gameLogic with
    | some attached =>
      if isRunning attached then none
      else some (s.call (.gameLogicDeleteLater gameLogic))
    | none => some s
  match guarded with
  | none => s
  | some s =>
    let s := { s with p_ptr := { s.p_ptr with gameLogic := some gameLogic } }
    let s := { s with connections := s.connections ++ [Connection.aboutToStart gameLogic] }
    let s := { s with connections := s.connections ++ [Connection.started gameLogic] }
    let s := { s with connections := s.connections ++ [Connection.finishedOnGameOver gameLogic] }
    let s := { s with connections := s.connections ++ [Connection.finished gameLogic] }
    s.call (.moveToThread gameLogic)

/-- Source function `CRoom::gameLogic`. -/
def gameLogic (s : CRoom) : Option CAbstractGameLogic := s.p_ptr.gameLogic

/-- The name `tr("Robot %1").arg(code)` for a character code (no translation
loaded). -/
def robotName (code : Nat) : String := "Robot " ++ String.singleton (Char.ofNat code)

/-- Source function `CRoom::newRobotName`: the room afterwards and the name
returned, `tr("Robot %1").arg(code)`. The code is a `char`, so the sum is
taken modulo 256. -/
def newRobotName (s : CRoom) : CRoom × String :=
  let code := s.p_ptr.robotNameCode
  let s := { s with p_ptr :=
    { s.p_ptr with robotNameCode := (s.p_ptr.robotNameCode + 1) % 256 } }
  let s :=
    if s.p_ptr.robotNameCode = 90 + 1 then
      { s with p_ptr := { s.p_ptr with robotNameCode := 65 } }
    else s
  (s, robotName code)

/-- Source function `CRoom::broadcastSystemMessage`. -/
def broadcastSystemMessage (s : CRoom) (message : String) : CRoom :=
  let data := QVariant.entry "message" (.string message)
  s.broadcastNotification .S_COMMAND_SPEAK data none

/-- The loop of `CRoom::startGame`: whether it meets an agent that is not the
owner and is not ready, which makes `startGame` send its message and return. -/
def meetsNotReady (owner : Option CServerUser) (ready : CServerAgent → Bool) :
    List CServerAgent → Bool
  | [] => false
  | agent :: rest =>
    if owner.map CServerAgent.user ≠ some agent ∧ ready agent = false then true
    else meetsNotReady owner ready rest

/-- Modelled from the spec: `croom.h`, which declares the default arguments of
`broadcastNotification`, is not among the sources; a broadcast with the command
alone carries an empty `QVariant` and leaves no agent out. -/
def broadcastCommand (s : CRoom) (command : Command) : CRoom :=
  s.broadcastNotification command .null none

/-- Source function `CRoom::startGame`. `isRunning` is the answer of
`QThread::isRunning` for each engine, `ready` that of `agent->ready()`. -/
def startGame (s : CRoom) (isRunning : CAbstractGameLogic → Bool)
    (ready : CServerAgent → Bool) : CRoom :=
  match s.p_ptr.gameLogic with
  | some gameLogic =>
    if !isRunning gameLogic then
      if meetsNotReady s.owner ready s.agents then
        s.broadcastSystemMessage "At least one player is not ready, the game can't be started"
      else
        let s := s.broadcastCommand .S_COMMAND_START_GAME
        s.call (.emit .aboutToStart)
    else s
  | none => s

/-- Whether an engine is attached and is not running. -/
def engineIdle (s : CRoom) (isRunning : CAbstractGameLogic → Bool) : Bool :=
  match s.p_ptr.gameLogic with
  | some gameLogic => !isRunning gameLogic
  | none => false

/-- Whether every seated agent other than the owner is ready. -/
def othersReady (s : CRoom) (ready : CServerAgent → Bool) : Bool :=
  s.agents.all (fun a => decide (s.owner.map CServerAgent.user = some a) || ready a)

/-- The text of the system message of `CRoom::startGame`. -/
def notReadyMessage : String :=
  "At least one player is not ready, the game can't be started"

/-- One round of the loop of `CRoom::onGameOver`, for one entry of the robots
map. -/
def gameOverRound (s : CRoom) (e : Nat × CServerRobot) : CRoom :=
  let id := e.1
  let robot := e.2
  let s := s.removeRobot robot
  let s := if s.p_ptr.server.isSome then s.call (.killRobot id) else s
  s.call (.robotDeleteLater robot)

/-- Whether the room is the lobby of the server it belongs to. -/
def isLobby (s : CRoom) : Bool :=
  match s.p_ptr.server with
  | some server => decide (server.lobby = s.p_ptr.id)
  | none => false

/-- The first step of `CRoom::addUser` on a room that is not full ("exit the
previous room"): the room when the user list is built. -/
def exitPreviousRoom (s : CRoom) (user : CServerUser) (prevRoom : Option RoomPtr) : CRoom :=
  match prevRoom with
  | some .self => s.removeUser user
  | some (.other room) => s.call (.prevRoomRemoveUser room user)
  | none => s

/-- Whether the robots map is a well-formed `QMap` filled by `addRobot`: the
keys ascend strictly and every robot sits under its own id. -/
def robotsWellFormed (s : CRoom) : Bool :=
  decide (s.p_ptr.robots.keys.Pairwise (fun a b => a < b))
    && s.p_ptr.robots.entries.all (fun e => decide (e.2.id = e.1))

/-- The room after `k` calls of `newRobotName`, the call number `i` (from 0)
coming after the run `between i` of other operations. -/
def afterRobotNames (s : CRoom) (between : Nat → List Op) : Nat → CRoom
  | 0 => s
  | k + 1 => ((afterRobotNames s between k).run (between k)).newRobotName.1

/-- The letters of the robot names, in order. -/
def robotLetters : List Char := "ABCDEFGHIJKLMNOPQRSTUVWXYZ".toList

end CRoom

/-! ## Example rooms -/

/-- A new room without server, with the given capacity and a 10 second
timeout. -/
def exampleRoom (capacity : Int) : CRoom :=
  CRoom.create none 0 ⟨"room", capacity, 10⟩ none

/-- Users 1, 3 and 2 join a room without capacity limit in this order, user 1
being made owner on arrival. -/
def exampleThreeUsers : CRoom :=
  (exampleRoom 0).run
    [Op.addUser ⟨1⟩ none, Op.setOwner ⟨1⟩, Op.addUser ⟨3⟩ none, Op.addUser ⟨2⟩ none]

/-- User 1 owns a room in which it sits alone with robot 5. -/
def exampleLoneOwner : CRoom :=
  (exampleRoom 4).run [Op.addUser ⟨1⟩ none, Op.setOwner ⟨1⟩, Op.addRobot ⟨5⟩]

/-- A room of capacity 2 with user 1 and robot 7 seated. -/
def exampleFullRoom : CRoom :=
  (exampleRoom 2).run [Op.addUser ⟨1⟩ none, Op.setOwner ⟨1⟩, Op.addRobot ⟨7⟩]

/-- The room after a racing call over users 1 and 2 that user 1 won. -/
def exampleAfterRace : CRoom :=
  ((exampleRoom 4).broadcastRacingRequest
    [CServerAgent.user ⟨1⟩, CServerAgent.user ⟨2⟩] 10 [CServerAgent.user ⟨1⟩]).1

/-- The room after two racing calls over users 1 and 2, both won by user 1,
the only agent to reply in either. -/
def exampleAfterTwoRaces : CRoom :=
  (exampleAfterRace.broadcastRacingRequest
    [CServerAgent.user ⟨1⟩, CServerAgent.user ⟨2⟩] 10 [CServerAgent.user ⟨1⟩]).1

/-- Room 1 of a server whose lobby is room 0: user 1 owns it and sits with
robots 5 and 6. -/
def exampleWithServer : CRoom :=
  (CRoom.create (some ⟨0⟩) 1 ⟨"room", 4, 10⟩ none).run
    [Op.addUser ⟨1⟩ none, Op.setOwner ⟨1⟩, Op.addRobot ⟨5⟩, Op.addRobot ⟨6⟩]

/-! ## Lemmas on QMap -/

namespace QMap

variable {α : Type}

theorem size_insert_le (m : QMap α) (key : Nat) (value : α) :
    (m.insert key value).size ≤ m.size + 1 := by
  obtain ⟨l⟩ := m
  simp only [insert, size]
  induction l with
  | nil => simp [insertEntries]
  | cons e rest ih =>
    obtain ⟨k, v⟩ := e
    simp only [insertEntries]
    split_ifs <;> simp_all

theorem size_remove_le (m : QMap α) (key : Nat) : (m.remove key).1.size ≤ m.size := by
  simp only [remove, size]
  exact List.length_filter_le _ _

theorem value_insert_self (m : QMap α) (key : Nat) (value : α) :
    (m.insert key value).value key = some value := by
  obtain ⟨l⟩ := m
  simp only [insert, QMap.value]
  induction l with
  | nil => simp [insertEntries]
  | cons e rest ih =>
    obtain ⟨k, v⟩ := e
    simp only [insertEntries]
    split_ifs with h1 h2
    · simp
    · simp
    · have hne : ¬ k = key := fun h => h2 h.symm
      simpa [List.find?_cons, hne] using ih

theorem mem_insertEntries {key : Nat} {value : α} {l : List (Nat × α)} {e : Nat × α}
    (h : e ∈ insertEntries key value l) : e = (key, value) ∨ e ∈ l := by
  induction l with
  | nil => simpa [insertEntries] using h
  | cons x rest ih =>
    obtain ⟨k, v⟩ := x
    simp only [insertEntries] at h
    split_ifs at h with h1 h2
    · rcases List.mem_cons.mp h with h | h
      · exact Or.inl h
      · exact Or.inr h
    · rcases List.mem_cons.mp h with h | h
      · exact Or.inl h
      · exact Or.inr (List.mem_cons_of_mem _ h)
    · rcases List.mem_cons.mp h with h | h
      · exact Or.inr (h ▸ List.mem_cons_self _ _)
      · rcases ih h with h | h
        · exact Or.inl h
        · exact Or.inr (List.mem_cons_of_mem _ h)

theorem keys_insert_pairwise (m : QMap α) (key : Nat) (value : α)
    (h : m.keys.Pairwise (fun a b => a < b)) :
    (m.insert key value).keys.Pairwise (fun a b => a < b) := by
  obtain ⟨l⟩ := m
  simp only [insert, keys] at *
  induction l with
  | nil => simp [insertEntries]
  | cons x rest ih =>
    obtain ⟨k, v⟩ := x
    simp only [List.map_cons, List.pairwise_cons] at h
    simp only [insertEntries]
    split_ifs with h1 h2
    · rw [List.map_cons, List.map_cons, List.pairwise_cons, List.pairwise_cons]
      refine ⟨?_, h.1, h.2⟩
      intro b hb
      rcases List.mem_cons.mp hb with rfl | hb
      · exact h1
      · exact lt_trans h1 (h.1 _ hb)
    · subst h2
      rw [List.map_cons, List.pairwise_cons]
      exact ⟨h.1, h.2⟩
    · simp only [List.map_cons, List.pairwise_cons, List.mem_map]
      refine ⟨?_, ih h.2⟩
      rintro b ⟨e, he, rfl⟩
      rcases mem_insertEntries he with rfl | he
      · simp only; omega
      · exact h.1 _ (List.mem_map_of_mem _ he)

theorem keys_remove_pairwise (m : QMap α) (key : Nat)
    (h : m.keys.Pairwise (fun a b => a < b)) :
    (m.remove key).1.keys.Pairwise (fun a b => a < b) := by
  simp only [remove, keys] at *
  exact List.Pairwise.sublist ((List.filter_sublist _).map _) h

theorem value_insert_of_ne (m : QMap α) {key key' : Nat} (value : α) (hne : key' ≠ key) :
    (m.insert key value).value key' = m.value key' := by
  obtain ⟨l⟩ := m
  simp only [insert, QMap.value]
  induction l with
  | nil => simp [insertEntries, List.find?_cons, hne.symm]
  | cons x rest ih =>
    obtain ⟨k, v⟩ := x
    simp only [insertEntries]
    split_ifs with h1 h2
    · simp [List.find?_cons, hne.symm]
    · subst h2
      simp [List.find?_cons, hne.symm]
    · by_cases hk : k = key'
      · simp [List.find?_cons, hk]
      · simpa [List.find?_cons, hk] using ih

theorem value_remove_of_ne (m : QMap α) {key key' : Nat} (hne : key' ≠ key) :
    (m.remove key).1.value key' = m.value key' := by
  obtain ⟨l⟩ := m
  simp only [remove, QMap.value]
  induction l with
  | nil => simp
  | cons x rest ih =>
    obtain ⟨k, v⟩ := x
    by_cases hk : k = key
    · subst hk
      simpa [List.filter_cons, List.find?_cons, hne.symm] using ih
    · by_cases hk' : k = key'
      · subst hk'
        simp [List.filter_cons, List.find?_cons, hk]
      · simpa [List.filter_cons, List.find?_cons, hk, hk'] using ih

theorem value_remove_self (m : QMap α) (key : Nat) : (m.remove key).1.value key = none := by
  simp only [remove, QMap.value, Option.map_eq_none', List.find?_eq_none, List.mem_filter]
  intro e he
  simpa using he.2

/-- A value found under a key is an entry of the map. -/
theorem mem_of_value_eq_some {m : QMap α} {key : Nat} {v : α} (h : m.value key = some v) :
    (key, v) ∈ m.entries := by
  simp only [QMap.value, Option.map_eq_some'] at h
  obtain ⟨e, he, rfl⟩ := h
  have h1 := List.find?_some he
  have h2 := List.mem_of_find?_eq_some he
  simp only [decide_eq_true_eq] at h1
  obtain ⟨k, v⟩ := e
  simp only at h1
  subst h1
  exact h2

/-- In a map with ascending keys an entry is found under its key. -/
theorem value_eq_some_of_mem {m : QMap α} {key : Nat} {v : α}
    (hs : m.keys.Pairwise (fun a b => a < b)) (h : (key, v) ∈ m.entries) :
    m.value key = some v := by
  obtain ⟨l⟩ := m
  simp only [QMap.value, keys] at *
  induction l with
  | nil => simp at h
  | cons x rest ih =>
    obtain ⟨k, w⟩ := x
    simp only [List.map_cons, List.pairwise_cons] at hs
    rcases List.mem_cons.mp h with h | h
    · cases h
      simp [List.find?_cons]
    · have hlt := hs.1 key (List.mem_map_of_mem Prod.fst h)
      have hne : ¬ k = key := by simp only at hlt; omega
      simpa [List.find?_cons, hne] using ih hs.2 h

/-- Removing a key that is present takes at least one entry away. -/
theorem remove_count_pos {m : QMap α} {key : Nat} {v : α} (h : (key, v) ∈ m.entries) :
    (m.remove key).2 ≠ 0 := by
  simp only [remove]
  have hlt : (m.entries.filter (fun e => decide (e.1 ≠ key))).length < m.entries.length := by
    apply List.length_filter_lt_length_iff_exists.mpr
    exact ⟨(key, v), h, by simp⟩
  omega

/-- Removing a key that is absent takes nothing away. -/
theorem remove_count_zero {m : QMap α} {key : Nat} (h : m.value key = none) :
    (m.remove key).2 = 0 := by
  simp only [remove]
  have : m.entries.filter (fun e => decide (e.1 ≠ key)) = m.entries := by
    rw [List.filter_eq_self]
    intro e he
    simp only [QMap.value, Option.map_eq_none', List.find?_eq_none, decide_eq_true_eq] at h
    simpa using h e he
  rw [this]
  omega

end QMap

/-! ## Lemmas on the notification primitives -/

namespace CRoom

@[simp] theorem call_p_ptr (s : CRoom) (c : Call) : (s.call c).p_ptr = s.p_ptr := rfl

@[simp] theorem call_connections (s : CRoom) (c : Call) :
    (s.call c).connections = s.connections := rfl

@[simp] theorem call_calls (s : CRoom) (c : Call) : (s.call c).calls = s.calls ++ [c] := rfl

/-- A loop that only records calls, some of them skipped, appends the calls of
the agents it does not skip. -/
theorem foldl_call_filter {β : Type} (l : List β) (keep : β → Bool) (f : β → Call)
    (s : CRoom) :
    l.foldl (fun s a => if keep a = true then s.call (f a) else s) s
      = { s with calls := s.calls ++ (l.filter keep).map f } := by
  induction l generalizing s with
  | nil => simp
  | cons a rest ih =>
    simp only [List.foldl_cons, ih]
    by_cases h : keep a = true
    · simp [h, call, List.filter_cons]
    · simp [h, List.filter_cons]

/-- A loop that records one call per element appends them all. -/
theorem foldl_call_map {β : Type} (l : List β) (f : β → Call) (s : CRoom) :
    l.foldl (fun s a => s.call (f a)) s = { s with calls := s.calls ++ l.map f } := by
  induction l generalizing s with
  | nil => simp
  | cons a rest ih =>
    simp only [List.foldl_cons, ih]
    simp [call]

theorem agents_eq (s : CRoom) :
    s.agents = s.p_ptr.users.values.map CServerAgent.user
      ++ s.p_ptr.robots.values.map CServerAgent.robot := by
  have h : ∀ {β : Type} (g : β → CServerAgent) (l : List β) (acc : List CServerAgent),
      l.foldl (fun agents x => agents ++ [g x]) acc = acc ++ l.map g := by
    intro β g l
    induction l with
    | nil => simp
    | cons x rest ih => intro acc; simp [List.foldl_cons, ih]
  simp [agents, h]

theorem broadcastNotification_eq (s : CRoom) (command : Command) (data : QVariant)
    (except : Option CServerAgent) :
    s.broadcastNotification command data except
      = { s with calls := (s.calls ++ List.map (fun a => Call.notify a command data)
            (List.filter (fun a => decide (some a ≠ except)) s.agents)) } := by
  unfold broadcastNotification
  have := foldl_call_filter s.agents (fun a => decide (some a ≠ except))
    (fun a => Call.notify a command data) s
  simpa using this

@[simp] theorem broadcastNotification_p_ptr (s : CRoom) (command : Command) (data : QVariant)
    (except : Option CServerAgent) :
    (s.broadcastNotification command data except).p_ptr = s.p_ptr := by
  rw [broadcastNotification_eq]

@[simp] theorem broadcastNotification_connections (s : CRoom) (command : Command)
    (data : QVariant) (except : Option CServerAgent) :
    (s.broadcastNotification command data except).connections = s.connections := by
  rw [broadcastNotification_eq]

@[simp] theorem broadcastProperty_p_ptr (s : CRoom) (name : String) :
    (s.broadcastProperty name).p_ptr = s.p_ptr := by
  simp [broadcastProperty]

@[simp] theorem disconnectAgent_p_ptr (s : CRoom) (agent : CServerAgent) :
    (s.disconnectAgent agent).p_ptr = s.p_ptr := rfl

@[simp] theorem disconnectAgent_calls (s : CRoom) (agent : CServerAgent) :
    (s.disconnectAgent agent).calls = s.calls := rfl

@[simp] theorem removeUserNotify_p_ptr (s : CRoom) (user : CServerUser) :
    (s.removeUserNotify user).p_ptr = s.p_ptr := by
  simp [removeUserNotify]

@[simp] theorem unicastConfigTo_p_ptr (s : CRoom) (agent : CServerAgent) :
    (s.unicastConfigTo agent).p_ptr = s.p_ptr := rfl

/-- The private record after `removeUser`. -/
theorem removeUser_p_ptr (s : CRoom) (user : CServerUser) :
    (s.removeUser user).p_ptr =
      if (s.p_ptr.users.remove user.id).2 ≠ 0 then
        if some user = s.p_ptr.owner then
          if (s.p_ptr.users.remove user.id).1.isEmpty = false then
            { s.p_ptr with
              users := (s.p_ptr.users.remove user.id).1
              owner := (s.p_ptr.users.remove user.id).1.first }
          else
            { s.p_ptr with
              users := (s.p_ptr.users.remove user.id).1
              isAbandoned := true }
        else { s.p_ptr with users := (s.p_ptr.users.remove user.id).1 }
      else s.p_ptr := by
  unfold removeUser
  split_ifs <;> simp_all

/-- The private record after `addUser` on a room that is not full: the user is
inserted into the users map of the room as `prevRoom->removeUser` leaves it. -/
theorem addUser_p_ptr (s : CRoom) (user : CServerUser) (prevRoom : Option RoomPtr)
    (h : s.isFull = false) :
    (s.addUser user prevRoom).p_ptr =
      match prevRoom with
      | some .self =>
        { (s.removeUser user).p_ptr with
          users := (s.removeUser user).p_ptr.users.insert user.id user }
      | _ => { s.p_ptr with users := s.p_ptr.users.insert user.id user } := by
  unfold addUser
  rw [if_neg (by simp [h])]
  rcases prevRoom with _ | _ | room <;> simp

/-- The private record after `addRobot`. -/
theorem addRobot_p_ptr (s : CRoom) (robot : CServerRobot) :
    (s.addRobot robot).p_ptr
      = { s.p_ptr with robots := s.p_ptr.robots.insert robot.id robot } := by
  simp [addRobot]

/-- The private record after `removeRobot`. -/
theorem removeRobot_p_ptr (s : CRoom) (robot : CServerRobot) :
    (s.removeRobot robot).p_ptr =
      if (s.p_ptr.robots.remove robot.id).2 ≠ 0 then
        { s.p_ptr with robots := (s.p_ptr.robots.remove robot.id).1 }
      else s.p_ptr := by
  unfold removeRobot
  split_ifs <;> simp_all

/-- The loop of `onGameOver` touches neither the users map, the owner, the
abandoned flag nor the settings, and seats no robot. -/
theorem onGameOver_loop_frame (l : List (Nat × CServerRobot)) (s : CRoom) :
    (l.foldl
      (fun s e =>
        let id := e.1
        let robot := e.2
        let s := s.removeRobot robot
        let s := if s.p_ptr.server.isSome then s.call (.killRobot id) else s
        s.call (.robotDeleteLater robot)) s).p_ptr.users = s.p_ptr.users
    ∧ (l.foldl
      (fun s e =>
        let id := e.1
        let robot := e.2
        let s := s.removeRobot robot
        let s := if s.p_ptr.server.isSome then s.call (.killRobot id) else s
        s.call (.robotDeleteLater robot)) s).p_ptr.owner = s.p_ptr.owner
    ∧ (l.foldl
      (fun s e =>
        let id := e.1
        let robot := e.2
        let s := s.removeRobot robot
        let s := if s.p_ptr.server.isSome then s.call (.killRobot id) else s
        s.call (.robotDeleteLater robot)) s).p_ptr.isAbandoned = s.p_ptr.isAbandoned
    ∧ (l.foldl
      (fun s e =>
        let id := e.1
        let robot := e.2
        let s := s.removeRobot robot
        let s := if s.p_ptr.server.isSome then s.call (.killRobot id) else s
        s.call (.robotDeleteLater robot)) s).p_ptr.settings = s.p_ptr.settings
    ∧ (l.foldl
      (fun s e =>
        let id := e.1
        let robot := e.2
        let s := s.removeRobot robot
        let s := if s.p_ptr.server.isSome then s.call (.killRobot id) else s
        s.call (.robotDeleteLater robot)) s).p_ptr.robots.size ≤ s.p_ptr.robots.size := by
  induction l generalizing s with
  | nil => simp
  | cons e rest ih =>
    simp only [List.foldl_cons]
    obtain ⟨h1, h2, h3, h4, h5⟩ := ih
      ((if (s.removeRobot e.2).p_ptr.server.isSome then (s.removeRobot e.2).call (.killRobot e.1)
        else s.removeRobot e.2).call (.robotDeleteLater e.2))
    have hp : ((if (s.removeRobot e.2).p_ptr.server.isSome
          then (s.removeRobot e.2).call (.killRobot e.1)
          else s.removeRobot e.2).call (.robotDeleteLater e.2)).p_ptr
        = (s.removeRobot e.2).p_ptr := by
      split_ifs <;> simp
    rw [hp] at h1 h2 h3 h4 h5
    have hr := removeRobot_p_ptr s e.2
    have hsz := QMap.size_remove_le s.p_ptr.robots e.2.id
    refine ⟨h1.trans ?_, h2.trans ?_, h3.trans ?_, h4.trans ?_, h5.trans ?_⟩
    all_goals (rw [hr]; split_ifs <;> simp_all)

/-- What `onGameOver` leaves alone. -/
theorem onGameOver_frame (s : CRoom) :
    s.onGameOver.p_ptr.users = s.p_ptr.users
      ∧ s.onGameOver.p_ptr.owner = s.p_ptr.owner
      ∧ s.onGameOver.p_ptr.isAbandoned = s.p_ptr.isAbandoned
      ∧ s.onGameOver.p_ptr.settings = s.p_ptr.settings
      ∧ s.onGameOver.p_ptr.robots.size ≤ s.p_ptr.robots.size := by
  have h := onGameOver_loop_frame s.p_ptr.robots.entries s
  unfold onGameOver
  exact h

/-! ## The invariant of the users map and the owner -/

theorem ownerInvariant_insert (p : CRoomPrivate) (user : CServerUser)
    (h : ownerInvariant p) :
    ownerInvariant { p with users := p.users.insert user.id user } := by
  obtain ⟨h1, h2, h3⟩ := h
  refine ⟨QMap.keys_insert_pairwise _ _ _ h1, ?_, ?_⟩
  · intro e he
    rcases QMap.mem_insertEntries he with rfl | he
    · rfl
    · exact h2 e he
  · intro ha o ho
    have hv := h3 ha o ho
    by_cases hid : o.id = user.id
    · have : o = user := by
        cases o; cases user; simpa using hid
      subst this
      exact QMap.value_insert_self _ _ _
    · show (p.users.insert user.id user).value o.id = some o
      rw [QMap.value_insert_of_ne _ _ hid]
      exact hv

theorem ownerInvariant_removeUser (s : CRoom) (user : CServerUser)
    (h : ownerInvariant s.p_ptr) : ownerInvariant (s.removeUser user).p_ptr := by
  obtain ⟨h1, h2, h3⟩ := h
  have hk := QMap.keys_remove_pairwise s.p_ptr.users user.id h1
  have he : ∀ e ∈ (s.p_ptr.users.remove user.id).1.entries, e.2.id = e.1 := by
    intro e hmem
    simp only [QMap.remove, List.mem_filter] at hmem
    exact h2 e hmem.1
  rw [removeUser_p_ptr]
  split_ifs with hrem hown hemp
  · refine ⟨hk, he, ?_⟩
    intro _ o ho
    simp only [QMap.first, Option.map_eq_some'] at ho
    obtain ⟨e, hhead, rfl⟩ := ho
    have hmem : e ∈ (s.p_ptr.users.remove user.id).1.entries := List.mem_of_mem_head? hhead
    have hid := he e hmem
    apply QMap.value_eq_some_of_mem hk
    show (e.2.id, e.2) ∈ (s.p_ptr.users.remove user.id).1.entries
    rw [hid]
    exact hmem
  · exact ⟨hk, he, fun ha => by simp at ha⟩
  · refine ⟨hk, he, ?_⟩
    intro ha o ho
    have hv := h3 ha o ho
    have hne : o.id ≠ user.id := by
      intro hid
      apply hown
      have : o = user := by
        cases o; cases user; simpa using hid
      rw [ho, this]
    show (s.p_ptr.users.remove user.id).1.value o.id = some o
    rw [QMap.value_remove_of_ne _ hne]
    exact hv
  · exact ⟨h1, h2, h3⟩

theorem ownerInvariant_step (s : CRoom) (op : Op) (h : ownerInvariant s.p_ptr)
    (hop : ∀ o, op = Op.setOwner o → s.seated o = true) :
    ownerInvariant (s.step op).p_ptr := by
  cases op with
  | addUser user prevRoom =>
    simp only [step]
    by_cases hf : s.isFull = true
    · have : s.addUser user prevRoom = s := by
        unfold addUser; rw [if_pos hf]
      rw [this]; exact h
    · rw [addUser_p_ptr s user prevRoom (by simpa using hf)]
      rcases prevRoom with _ | _ | room
      · exact ownerInvariant_insert _ _ h
      · exact ownerInvariant_insert _ _ (ownerInvariant_removeUser s user h)
      · exact ownerInvariant_insert _ _ h
  | removeUser user => exact ownerInvariant_removeUser s user h
  | addRobot robot =>
    simp only [step, addRobot_p_ptr]
    exact h
  | removeRobot robot =>
    simp only [step, removeRobot_p_ptr]
    split_ifs
    · exact h
    · exact h
  | onGameOver =>
    obtain ⟨g1, g2, g3, _, _⟩ := onGameOver_frame s
    simp only [step, ownerInvariant, g1, g2, g3]
    exact h
  | setOwner o =>
    have hs := hop o rfl
    simp only [seated, findUser, decide_eq_true_eq] at hs
    obtain ⟨h1, h2, _⟩ := h
    refine ⟨h1, h2, ?_⟩
    intro _ o' ho'
    simp only [step, setOwner, Option.some.injEq] at ho'
    subst ho'
    exact hs

theorem ownerInvariant_run (ops : List Op) :
    ∀ s : CRoom, ownerInvariant s.p_ptr → s.ownersSeated ops = true →
      ownerInvariant (s.run ops).p_ptr := by
  induction ops with
  | nil => intro s h _; exact h
  | cons op rest ih =>
    intro s h hs
    have hrun : s.run (op :: rest) = (s.step op).run rest := rfl
    rw [hrun]
    cases op with
    | setOwner o =>
      simp only [ownersSeated, Bool.and_eq_true] at hs
      exact ih _ (ownerInvariant_step s _ h (fun o' ho' => by cases ho'; exact hs.1)) hs.2
    | addUser user prevRoom =>
      exact ih _ (ownerInvariant_step s _ h (fun o' ho' => by cases ho')) hs
    | removeUser user =>
      exact ih _ (ownerInvariant_step s _ h (fun o' ho' => by cases ho')) hs
    | addRobot robot =>
      exact ih _ (ownerInvariant_step s _ h (fun o' ho' => by cases ho')) hs
    | removeRobot robot =>
      exact ih _ (ownerInvariant_step s _ h (fun o' ho' => by cases ho')) hs
    | onGameOver =>
      exact ih _ (ownerInvariant_step s _ h (fun o' ho' => by cases ho')) hs

theorem ownerInvariant_create (server : Option CServer) (roomId : Nat)
    (settings : CRoomSettings) (winner : Option CServerAgent) :
    ownerInvariant (create server roomId settings winner).p_ptr := by
  refine ⟨?_, ?_, ?_⟩
  · simp [create, QMap.keys, QMap.empty]
  · simp [create, QMap.empty]
  · simp [create]

/-- The calls of `removeUser` when it promotes a new owner: the `ownerId`
property goes to every agent still seated, then the remove-user notification,
then the signal `userRemoved`. -/
theorem removeUser_calls_promoted (s : CRoom) (user : CServerUser)
    (hrem : (s.p_ptr.users.remove user.id).2 ≠ 0) (hown : s.p_ptr.owner = some user)
    (hemp : (s.p_ptr.users.remove user.id).1.isEmpty = false) :
    (s.removeUser user).calls = s.calls
      ++ ((s.removeUser user).agents.map (fun a =>
            Call.notify a Command.S_COMMAND_CONFIGURE_ROOM
              (QVariant.entry "ownerId" (QVariant.uint (s.removeUser user).ownerId)))
        ++ ((s.removeUser user).agents.filter
              (fun a => decide (some a ≠ some (CServerAgent.user user)))).map
            (fun a => Call.notify a Command.S_COMMAND_REMOVE_USER (QVariant.uint user.id))
        ++ [Call.emit (Signal.userRemoved user)]) := by
  have hp : (s.removeUser user).p_ptr
      = { s.p_ptr with
          users := (s.p_ptr.users.remove user.id).1
          owner := (s.p_ptr.users.remove user.id).1.first } := by
    rw [removeUser_p_ptr, if_pos hrem, if_pos hown.symm, if_pos hemp]
  have hag : (s.removeUser user).agents
      = (s.p_ptr.users.remove user.id).1.values.map CServerAgent.user
        ++ s.p_ptr.robots.values.map CServerAgent.robot := by
    rw [agents_eq, hp]
  have hid : (s.removeUser user).ownerId
      = match (s.p_ptr.users.remove user.id).1.first with
        | some o => o.id
        | none => 0 := by
    simp only [ownerId, hp]
  rw [hag, hid]
  unfold removeUser
  simp only [hrem, ne_eq, not_false_eq_true, if_true, disconnectAgent, hown,
    hemp, Bool.not_false, broadcastProperty, removeUserNotify,
    broadcastNotification_eq, property, ownerId, call,
    agents_eq, List.append_assoc]
  simp

/-! ## The capacity bound -/

theorem removeUser_frame (s : CRoom) (user : CServerUser) :
    (s.removeUser user).p_ptr.users.size ≤ s.p_ptr.users.size
      ∧ (s.removeUser user).p_ptr.robots = s.p_ptr.robots
      ∧ (s.removeUser user).p_ptr.settings = s.p_ptr.settings := by
  have hsz := QMap.size_remove_le s.p_ptr.users user.id
  rw [removeUser_p_ptr]
  split_ifs <;> simp_all

/-- One operation keeps the occupancy within a capacity above 0, provided an
`addRobot` comes only when the room is not full. -/
theorem occupancy_step (s : CRoom) (op : Op) (c : Int) (hc : 0 < c)
    (hcap : s.capacity = c) (hocc : (s.occupancy : Int) ≤ c)
    (hop : ∀ robot, op = Op.addRobot robot → s.isFull = false) :
    (s.step op).capacity = c ∧ ((s.step op).occupancy : Int) ≤ c := by
  have hnotfull : s.isFull = false → (s.occupancy : Int) < c := by
    intro hf
    simp only [isFull, occupancy, Bool.and_eq_false_iff, decide_eq_false_iff_not] at hf ⊢
    rcases hf with hf | hf
    · exact absurd (hcap ▸ hc) hf
    · rw [hcap] at hf
      push_cast
      omega
  simp only [capacity, occupancy] at *
  cases op with
  | addUser user prevRoom =>
    simp only [step]
    by_cases hf : s.isFull = true
    · have : s.addUser user prevRoom = s := by
        unfold addUser; rw [if_pos hf]
      rw [this]; exact ⟨hcap, hocc⟩
    · have hf' : s.isFull = false := by simpa using hf
      have hlt := hnotfull hf'
      rw [addUser_p_ptr s user prevRoom hf']
      obtain ⟨g1, g2, g3⟩ := removeUser_frame s user
      have i1 := QMap.size_insert_le s.p_ptr.users user.id user
      have i2 := QMap.size_insert_le (s.removeUser user).p_ptr.users user.id user
      rcases prevRoom with _ | _ | room
      · exact ⟨hcap, by simp only; omega⟩
      · exact ⟨by simp only [g3]; exact hcap, by simp only [g2]; omega⟩
      · exact ⟨hcap, by simp only; omega⟩
  | removeUser user =>
    obtain ⟨g1, g2, g3⟩ := removeUser_frame s user
    simp only [step, g2, g3]
    exact ⟨hcap, by omega⟩
  | addRobot robot =>
    have hlt := hnotfull (hop robot rfl)
    have i1 := QMap.size_insert_le s.p_ptr.robots robot.id robot
    simp only [step, addRobot_p_ptr]
    exact ⟨hcap, by omega⟩
  | removeRobot robot =>
    have i1 := QMap.size_remove_le s.p_ptr.robots robot.id
    simp only [step, removeRobot_p_ptr]
    split_ifs
    · exact ⟨hcap, by simp only; omega⟩
    · exact ⟨hcap, hocc⟩
  | onGameOver =>
    obtain ⟨g1, _, _, g4, g5⟩ := onGameOver_frame s
    simp only [step, g1, g4]
    exact ⟨hcap, by omega⟩
  | setOwner o =>
    simp only [step, setOwner]
    exact ⟨hcap, hocc⟩

theorem occupancy_states (ops : List Op) (c : Int) (hc : 0 < c) :
    ∀ s : CRoom, s.capacity = c → (s.occupancy : Int) ≤ c → s.robotsGuarded ops = true →
      ∀ r ∈ s.states ops, r.capacity = c ∧ (r.occupancy : Int) ≤ c := by
  induction ops with
  | nil =>
    intro s hcap hocc _ r hr
    simp only [states, List.mem_singleton] at hr
    subst hr
    exact ⟨hcap, hocc⟩
  | cons op rest ih =>
    intro s hcap hocc hg r hr
    simp only [states, List.mem_cons] at hr
    rcases hr with rfl | hr
    · exact ⟨hcap, hocc⟩
    · cases op with
      | addRobot robot =>
        simp only [robotsGuarded, Bool.and_eq_true, Bool.not_eq_true'] at hg
        obtain ⟨h1, h2⟩ := occupancy_step s (Op.addRobot robot) c hc hcap hocc
          (fun _ _ => hg.1)
        exact ih _ h1 h2 hg.2 r hr
      | addUser user prevRoom =>
        obtain ⟨h1, h2⟩ := occupancy_step s (Op.addUser user prevRoom) c hc hcap hocc
          (fun _ h => by cases h)
        exact ih _ h1 h2 hg r hr
      | removeUser user =>
        obtain ⟨h1, h2⟩ := occupancy_step s (Op.removeUser user) c hc hcap hocc
          (fun _ h => by cases h)
        exact ih _ h1 h2 hg r hr
      | removeRobot robot =>
        obtain ⟨h1, h2⟩ := occupancy_step s (Op.removeRobot robot) c hc hcap hocc
          (fun _ h => by cases h)
        exact ih _ h1 h2 hg r hr
      | onGameOver =>
        obtain ⟨h1, h2⟩ := occupancy_step s Op.onGameOver c hc hcap hocc
          (fun _ h => by cases h)
        exact ih _ h1 h2 hg r hr
      | setOwner o =>
        obtain ⟨h1, h2⟩ := occupancy_step s (Op.setOwner o) c hc hcap hocc
          (fun _ h => by cases h)
        exact ih _ h1 h2 hg r hr

/-! ## Lemmas on the request coordinator -/

theorem mem_cancelled {candidates : List CServerAgent} {winner a : CServerAgent} :
    a ∈ cancelled candidates winner ↔ a ∈ candidates ∧ a ≠ winner := by
  simp [cancelled]

/-- The loop of `onAgentReplyReady` in closed form. -/
theorem cancelLoop_eq (w : CServerAgent) (l : List CServerAgent) (s : CRoom)
    (hw : s.p_ptr.racingRequestWinner = some w) :
    l.foldl
      (fun s agent =>
        if some agent = s.p_ptr.racingRequestWinner then s
        else
          let s := s.call (.cancelRequest agent)
          { s with connections :=
              s.connections.filter (fun c => c ≠ Connection.replyReady agent) })
      s
    = { s with
        connections := (s.connections.filter
          (fun c => decide (c ∉ (cancelled l w).map Connection.replyReady)))
        calls := (s.calls ++ (cancelled l w).map Call.cancelRequest) } := by
  induction l generalizing s with
  | nil => simp [cancelled]
  | cons a rest ih =>
    rw [List.foldl_cons]
    by_cases ha : a = w
    · subst ha
      rw [if_pos hw.symm, ih s hw]
      simp [cancelled]
    · have hne : ¬ some a = s.p_ptr.racingRequestWinner := by
        rw [hw]; simpa using ha
      rw [if_neg hne, ih _ (by simpa using hw)]
      have hc : cancelled (a :: rest) w = a :: cancelled rest w := by
        simp [cancelled, ha]
      rw [hc, List.map_cons, List.map_cons]
      generalize (cancelled rest w).map Connection.replyReady = L
      simp only [call_p_ptr, call_connections, call_calls, List.filter_filter,
        List.append_assoc, List.singleton_append, CRoom.mk.injEq, true_and, and_true]
      apply List.filter_congr
      intro c _
      by_cases h1 : c = Connection.replyReady a <;> by_cases h2 : c ∈ L <;> simp [h1, h2]

/-- Slot `onAgentReplyReady` in closed form: the sender becomes the winner, every
other candidate is cancelled and disconnected, one permit is released. -/
theorem onAgentReplyReady_eq (s : CRoom) (sender : CServerAgent) :
    s.onAgentReplyReady sender =
      { p_ptr := { s.p_ptr with
          racingRequestWinner := some sender
          racingRequestSemaphore := s.p_ptr.racingRequestSemaphore + 1 }
        connections := (s.connections.filter (fun c =>
          decide (c ∉ (cancelled s.p_ptr.racingRequestCandidates sender).map
            Connection.replyReady)))
        calls := (s.calls
          ++ (cancelled s.p_ptr.racingRequestCandidates sender).map Call.cancelRequest) } := by
  unfold onAgentReplyReady
  simp only []
  rw [cancelLoop_eq sender _ _ rfl]

/-- The part of `broadcastRacingRequest` before the wait, in closed form. -/
theorem racingRequestStart_eq (s : CRoom) (targets : List CServerAgent) (timeout : Int) :
    s.racingRequestStart targets timeout =
      { p_ptr := { s.p_ptr with racingRequestCandidates := targets }
        connections := (s.connections ++ targets.map Connection.replyReady)
        calls := (s.calls ++ targets.map (fun a => Call.executeRequest a timeout)) } := by
  unfold racingRequestStart
  have h1 : ∀ (l : List CServerAgent) (r : CRoom),
      l.foldl (fun s agent =>
          { s with connections := s.connections ++ [Connection.replyReady agent] }) r
        = { r with connections := (r.connections ++ l.map Connection.replyReady) } := by
    intro l
    induction l with
    | nil => intro r; simp
    | cons a rest ih => intro r; simp [List.foldl_cons, ih]
  simp only [h1, foldl_call_map]

theorem mem_cancelCalls {candidates : List CServerAgent} {winner : CServerAgent} {k : Nat}
    {c : Call} (h : c ∈ cancelCalls candidates winner k) :
    ∃ a, a ∈ candidates ∧ a ≠ winner ∧ c = Call.cancelRequest a := by
  induction k with
  | zero => simp [cancelCalls] at h
  | succ k ih =>
    simp only [cancelCalls, List.mem_append, List.mem_map] at h
    rcases h with ⟨a, ha, rfl⟩ | h
    · exact ⟨a, (mem_cancelled.mp ha).1, (mem_cancelled.mp ha).2, rfl⟩
    · exact ih h

theorem cancelRequest_mem_cancelCalls {candidates : List CServerAgent}
    {winner a : CServerAgent} {k : Nat} (hk : 1 ≤ k) (ha : a ∈ candidates)
    (hne : a ≠ winner) : Call.cancelRequest a ∈ cancelCalls candidates winner k := by
  obtain ⟨j, rfl⟩ : ∃ j, k = j + 1 := ⟨k - 1, by omega⟩
  simp only [cancelCalls, List.mem_append, List.mem_map]
  exact Or.inl ⟨a, mem_cancelled.mpr ⟨ha, hne⟩, rfl⟩

theorem onAgentReplyReady_iterate {β : Type} (sender : CServerAgent) (rest : List β) :
    ∀ (s : CRoom) (x : β),
      (x :: rest).foldl (fun s _ => s.onAgentReplyReady sender) s
        = s.afterReplies sender (rest.length + 1) := by
  induction rest with
  | nil =>
    intro s x
    simp [onAgentReplyReady_eq, afterReplies, cancelCalls]
  | cons y rest ih =>
    intro s x
    rw [List.foldl_cons, ih (s.onAgentReplyReady sender) y, onAgentReplyReady_eq]
    simp only [afterReplies, List.filter_filter, Bool.and_self, List.length_cons,
      List.append_assoc, cancelCalls, CRoom.mk.injEq, and_true, true_and]
    congr 1
    omega

/-- A `replyReady` from an agent that is not connected runs no slot. -/
theorem replyReady_not_connected (s : CRoom) (agent : CServerAgent)
    (h : Connection.replyReady agent ∉ s.connections) : s.replyReady agent = s := by
  unfold replyReady
  have : s.connections.filter (fun c => decide (c = Connection.replyReady agent)) = [] := by
    rw [List.filter_eq_nil_iff]
    intro c hc
    simp only [decide_eq_true_eq]
    rintro rfl
    exact h hc
  rw [this]
  rfl

/-- A `replyReady` from a connected agent runs the slot at least once. -/
theorem replyReady_connected (s : CRoom) (agent : CServerAgent)
    (h : Connection.replyReady agent ∈ s.connections) :
    ∃ k, 1 ≤ k ∧ s.replyReady agent = s.afterReplies agent k := by
  unfold replyReady
  cases hl : s.connections.filter (fun c => decide (c = Connection.replyReady agent)) with
  | nil =>
    exfalso
    rw [List.filter_eq_nil_iff] at hl
    exact hl _ h (by simp)
  | cons x rest =>
    exact ⟨rest.length + 1, by omega, onAgentReplyReady_iterate agent rest s x⟩

/-- A timeout of 0 to 2147483 seconds gives a millisecond count that fits an
`int`. -/
theorem int32_of_seconds (timeout : Int) (hlo : 0 ≤ timeout) (hhi : timeout ≤ 2147483) :
    int32 (timeout * 1000) = timeout * 1000 := by
  unfold int32
  omega

/-- Once a permit is there the waiting call looks at no further signal. -/
theorem racingRequestWait_of_permit (s : CRoom) (signals : List CServerAgent)
    (h : 1 ≤ s.p_ptr.racingRequestSemaphore) : s.racingRequestWait signals = s := by
  cases signals with
  | nil => rfl
  | cons a rest => simp [racingRequestWait, h]

end CRoom

/-! ## Lemmas on the rule engine and the robot names -/

namespace CRoom

theorem meetsNotReady_iff (owner : Option CServerUser) (ready : CServerAgent → Bool)
    (l : List CServerAgent) :
    meetsNotReady owner ready l = true
      ↔ ∃ a ∈ l, owner.map CServerAgent.user ≠ some a ∧ ready a = false := by
  induction l with
  | nil => simp [meetsNotReady]
  | cons a rest ih =>
    simp only [meetsNotReady, List.mem_cons, exists_eq_or_imp]
    split_ifs with h
    · simp [h]
    · simp only [ih]
      constructor
      · intro hr; exact Or.inr hr
      · rintro (hl | hr)
        · exact absurd hl h
        · exact hr

/-- An operation other than the game-over cleanup leaves the robot name code
alone. -/
theorem step_robotNameCode (s : CRoom) (op : Op) (hop : op ≠ Op.onGameOver) :
    (s.step op).p_ptr.robotNameCode = s.p_ptr.robotNameCode := by
  have hrem : ∀ user, (s.removeUser user).p_ptr.robotNameCode = s.p_ptr.robotNameCode := by
    intro user
    rw [removeUser_p_ptr]
    split_ifs <;> rfl
  cases op with
  | addUser user prevRoom =>
    simp only [step]
    by_cases hf : s.isFull = true
    · have : s.addUser user prevRoom = s := by
        unfold addUser; rw [if_pos hf]
      rw [this]
    · rw [addUser_p_ptr s user prevRoom (by simpa using hf)]
      rcases prevRoom with _ | _ | room
      · rfl
      · exact hrem user
      · rfl
  | removeUser user => exact hrem user
  | addRobot robot => simp only [step, addRobot_p_ptr]
  | removeRobot robot =>
    simp only [step, removeRobot_p_ptr]
    split_ifs <;> rfl
  | onGameOver => exact absurd rfl hop
  | setOwner o => rfl

theorem run_robotNameCode (ops : List Op) (hops : Op.onGameOver ∉ ops) :
    ∀ s : CRoom, (s.run ops).p_ptr.robotNameCode = s.p_ptr.robotNameCode := by
  induction ops with
  | nil => intro s; rfl
  | cons op rest ih =>
    intro s
    have hrun : s.run (op :: rest) = (s.step op).run rest := rfl
    rw [hrun, ih (fun h => hops (List.mem_cons_of_mem _ h)),
      step_robotNameCode s op (fun h => hops (h ▸ List.mem_cons_self _ _))]

theorem onGameOver_robotNameCode (s : CRoom) : s.onGameOver.p_ptr.robotNameCode = 65 := by
  unfold onGameOver
  rfl

/-- The name code after `k` calls of `newRobotName` that started from `A`. -/
theorem afterRobotNames_code (s : CRoom) (between : Nat → List Op)
    (hstart : s.p_ptr.robotNameCode = 65) (hbetween : ∀ i, Op.onGameOver ∉ between i)
    (k : Nat) : (s.afterRobotNames between k).p_ptr.robotNameCode = 65 + k % 26 := by
  induction k with
  | zero => simpa [afterRobotNames] using hstart
  | succ k ih =>
    have hrun := run_robotNameCode (between k) (hbetween k) (s.afterRobotNames between k)
    rw [ih] at hrun
    simp only [afterRobotNames, newRobotName, hrun]
    split_ifs with h
    · simp only
      omega
    · simp only
      omega

theorem robotLetters_get (j : Nat) (hj : j < 26) :
    robotLetters[j]? = some (Char.ofNat (65 + j)) := by
  revert j
  decide

end CRoom

namespace CRoom

theorem meetsNotReady_eq_not_othersReady (s : CRoom) (ready : CServerAgent → Bool) :
    meetsNotReady s.owner ready s.agents = !s.othersReady ready := by
  rw [Bool.eq_iff_iff, meetsNotReady_iff]
  simp only [othersReady, Bool.not_eq_true', List.all_eq_false, Bool.or_eq_true,
    decide_eq_true_eq, not_or, ne_eq, Bool.not_eq_true]

end CRoom

/-! ## Lemmas on the game-over cleanup and on the user list -/

namespace QMap

variable {α : Type}

/-- The entries that `remove` keeps, whether or not it removed any. -/
theorem remove_entries (m : QMap α) (key : Nat) :
    (m.remove key).1.entries = m.entries.filter (fun e => decide (e.1 ≠ key)) := rfl

/-- When `remove` reports no removal the map is as before. -/
theorem entries_of_remove_count_zero (m : QMap α) (key : Nat) (h : ¬ (m.remove key).2 ≠ 0) :
    m.entries = m.entries.filter (fun e => decide (e.1 ≠ key)) := by
  have h0 : m.entries.length
      - (m.entries.filter (fun e => decide (e.1 ≠ key))).length = 0 := by
    by_contra hne
    exact h hne
  have hle := List.length_filter_le (fun e : Nat × α => decide (e.1 ≠ key)) m.entries
  exact ((List.filter_sublist m.entries).eq_of_length (by omega)).symm

end QMap

namespace CRoom

theorem onGameOver_eq_rounds (s : CRoom) :
    s.onGameOver
      = { (s.p_ptr.robots.entries.foldl gameOverRound s) with
          p_ptr := { (s.p_ptr.robots.entries.foldl gameOverRound s).p_ptr with
            robotNameCode := 65 } } := rfl

theorem removeRobot_entries (s : CRoom) (robot : CServerRobot) :
    (s.removeRobot robot).p_ptr.robots.entries
      = s.p_ptr.robots.entries.filter (fun e => decide (e.1 ≠ robot.id)) := by
  rw [removeRobot_p_ptr]
  split_ifs with h
  · rfl
  · exact QMap.entries_of_remove_count_zero _ _ h

theorem removeRobot_server (s : CRoom) (robot : CServerRobot) :
    (s.removeRobot robot).p_ptr.server = s.p_ptr.server := by
  rw [removeRobot_p_ptr]
  split_ifs <;> rfl

theorem removeRobot_kills (s : CRoom) (robot : CServerRobot) :
    (s.removeRobot robot).calls.filterMap Call.killedId
      = s.calls.filterMap Call.killedId := by
  unfold removeRobot
  simp only []
  split_ifs
  · simp [broadcastNotification_eq, disconnectAgent, List.filterMap_append,
      List.filterMap_map, Call.killedId]
  · rfl

theorem removeUser_users_entries (s : CRoom) (user : CServerUser) :
    (s.removeUser user).p_ptr.users.entries
      = s.p_ptr.users.entries.filter (fun e => decide (e.1 ≠ user.id)) := by
  rw [removeUser_p_ptr]
  split_ifs with h
  · rfl
  · rfl
  · rfl
  · exact QMap.entries_of_remove_count_zero _ _ h

/-- The loop of `onGameOver` in closed form, as far as the robots map, the
server and the `killRobot` calls go. -/
theorem gameOverRounds (l : List (Nat × CServerRobot)) :
    ∀ s : CRoom,
      (l.foldl gameOverRound s).p_ptr.robots.entries
          = s.p_ptr.robots.entries.filter
              (fun e => decide (e.1 ∉ l.map (fun x => x.2.id)))
        ∧ (l.foldl gameOverRound s).p_ptr.server = s.p_ptr.server
        ∧ (s.p_ptr.server.isSome = true →
            (l.foldl gameOverRound s).calls.filterMap Call.killedId
              = s.calls.filterMap Call.killedId ++ l.map Prod.fst) := by
  induction l with
  | nil => intro s; simp
  | cons e rest ih =>
    intro s
    have hp : (gameOverRound s e).p_ptr = (s.removeRobot e.2).p_ptr := by
      simp only [gameOverRound]
      split_ifs <;> rfl
    obtain ⟨h1, h2, h3⟩ := ih (gameOverRound s e)
    rw [List.foldl_cons]
    refine ⟨?_, ?_, ?_⟩
    · rw [h1, hp, removeRobot_entries, List.filter_filter]
      apply List.filter_congr
      intro x _
      by_cases hx : x.1 = e.2.id <;>
        by_cases hm : x.1 ∈ rest.map (fun y => y.2.id) <;> simp [hx, hm]
    · rw [h2, hp, removeRobot_server]
    · intro hs
      have hs' : (s.removeRobot e.2).p_ptr.server.isSome = true := by
        rw [removeRobot_server]; exact hs
      rw [h3 (by rw [hp]; exact hs')]
      simp only [gameOverRound, hs', if_true, call_calls, List.filterMap_append,
        removeRobot_kills, List.map_cons, List.append_assoc]
      simp [Call.killedId]

theorem userListLoop_eq (l : List CServerAgent) :
    ∀ (count : Nat) (userList : List CServerAgent), count < 50 →
      userListLoop l count userList = userList ++ l.take (50 - count) := by
  induction l with
  | nil => intro count userList _; simp [userListLoop]
  | cons a rest ih =>
    intro count userList hc
    simp only [userListLoop]
    obtain ⟨j, hj⟩ : ∃ j, 50 - count = j + 1 := ⟨50 - count - 1, by omega⟩
    rw [hj, List.take_succ_cons]
    split_ifs with h
    · have : j = 0 := by omega
      subst this
      simp
    · rw [ih (count + 1) _ (by omega)]
      have : 50 - (count + 1) = j := by omega
      rw [this]
      simp

end CRoom

namespace CRoom

/-- The private record after `addUser` on a room that is not full, in terms of
the room as the eviction leaves it. -/
theorem addUser_p_ptr_exit (s : CRoom) (user : CServerUser) (prevRoom : Option RoomPtr)
    (h : s.isFull = false) :
    (s.addUser user prevRoom).p_ptr
      = { (s.exitPreviousRoom user prevRoom).p_ptr with
          users := (s.exitPreviousRoom user prevRoom).p_ptr.users.insert user.id user } := by
  rw [addUser_p_ptr s user prevRoom h]
  rcases prevRoom with _ | _ | room <;> rfl

/-- The calls of `addUser` on a room that is not full, after the eviction from
the previous room: the user list, `setRoom`, the enter-room acknowledgment,
the configuration, the add-user notification to the others and the signal
`userAdded`. -/
theorem addUser_calls (s : CRoom) (user : CServerUser) (prevRoom : Option RoomPtr)
    (h : s.isFull = false) :
    (s.addUser user prevRoom).calls
      = (s.exitPreviousRoom user prevRoom).calls
        ++ ([Call.notify (CServerAgent.user user) Command.S_COMMAND_SET_USER_LIST
              (QVariant.agentInfoList ((s.exitPreviousRoom user prevRoom).agents.take 50)),
            Call.setRoom (CServerAgent.user user),
            Call.notify (CServerAgent.user user) Command.S_COMMAND_ENTER_ROOM
              (QVariant.roomInfo (s.addUser user prevRoom).briefIntroduction),
            Call.notify (CServerAgent.user user) Command.S_COMMAND_CONFIGURE_ROOM
              (QVariant.config (s.addUser user prevRoom).p_ptr.settings)]
          ++ ((s.addUser user prevRoom).agents.filter
                (fun a => decide (some a ≠ some (CServerAgent.user user)))).map
              (fun a => Call.notify a Command.S_COMMAND_ADD_USER
                (QVariant.agentInfo (CServerAgent.user user)))
          ++ [Call.emit (Signal.userAdded user)]) := by
  have hF := addUser_p_ptr_exit s user prevRoom h
  have hloop := userListLoop_eq (s.exitPreviousRoom user prevRoom).agents 0 [] (by decide)
  simp only [List.nil_append, Nat.sub_zero] at hloop
  rw [← hloop]
  simp only [briefIntroduction, name, capacity, ownerId, agents_eq, hF]
  unfold addUser
  rw [if_neg (by simp [h])]
  rcases prevRoom with _ | _ | room <;>
    simp [exitPreviousRoom, broadcastNotification_eq, unicastConfigTo, call,
      briefIntroduction, name, capacity, ownerId, agents_eq]

/-- What `removeUser(owner)` does when another user is seated: the entries
left, with the promoted user in front. -/
theorem removeUser_promotes (s : CRoom) (owner other : CServerUser)
    (hwf : s.usersWellFormed = true)
    (howner : s.p_ptr.owner = some owner)
    (hseated : s.seated owner = true) (hother : s.seated other = true)
    (hne : other ≠ owner) :
    ∃ promoted,
      (s.p_ptr.users.remove owner.id).2 ≠ 0
        ∧ (s.p_ptr.users.remove owner.id).1.isEmpty = false
        ∧ (s.removeUser owner).p_ptr
          = { s.p_ptr with
              users := (s.p_ptr.users.remove owner.id).1
              owner := some promoted }
        ∧ (s.removeUser owner).seated owner = false
        ∧ (s.removeUser owner).seated promoted = true
        ∧ (∀ v, (s.removeUser owner).seated v = true → promoted.id ≤ v.id) := by
  simp only [usersWellFormed, Bool.and_eq_true, decide_eq_true_eq, List.all_eq_true] at hwf
  obtain ⟨hsorted, hids⟩ := hwf
  simp only [seated, findUser, decide_eq_true_eq] at hseated hother
  have hmemO := QMap.mem_of_value_eq_some hseated
  have hmemX := QMap.mem_of_value_eq_some hother
  have hrem : (s.p_ptr.users.remove owner.id).2 ≠ 0 := QMap.remove_count_pos hmemO
  have hidne : other.id ≠ owner.id := by
    intro hid
    apply hne
    cases other; cases owner; simpa using hid
  have hksorted := QMap.keys_remove_pairwise s.p_ptr.users owner.id hsorted
  have hmemK : (other.id, other) ∈ (s.p_ptr.users.remove owner.id).1.entries := by
    simp only [QMap.remove, List.mem_filter]
    exact ⟨hmemX, by simpa using hidne⟩
  have hkids : ∀ e ∈ (s.p_ptr.users.remove owner.id).1.entries, e.2.id = e.1 := by
    intro e hmem
    simp only [QMap.remove, List.mem_filter] at hmem
    simpa using hids e hmem.1
  cases hkept : (s.p_ptr.users.remove owner.id).1.entries with
  | nil => rw [hkept] at hmemK; simp at hmemK
  | cons e rest =>
    have hemp : (s.p_ptr.users.remove owner.id).1.isEmpty = false := by
      simp [QMap.isEmpty, hkept]
    have hfirst : (s.p_ptr.users.remove owner.id).1.first = some e.2 := by
      simp [QMap.first, hkept]
    have hp : (s.removeUser owner).p_ptr
        = { s.p_ptr with
            users := (s.p_ptr.users.remove owner.id).1
            owner := some e.2 } := by
      rw [removeUser_p_ptr, if_pos hrem, if_pos howner.symm, if_pos hemp, hfirst]
    have hemem : e ∈ (s.p_ptr.users.remove owner.id).1.entries := by
      rw [hkept]; exact List.mem_cons_self _ _
    refine ⟨e.2, hrem, hemp, hp, ?_, ?_, ?_⟩
    · simp only [seated, findUser, hp, decide_eq_false_iff_not]
      rw [QMap.value_remove_self]
      simp
    · simp only [seated, findUser, hp, decide_eq_true_eq]
      apply QMap.value_eq_some_of_mem hksorted
      rw [hkids e hemem]
      exact hemem
    · intro v hv
      simp only [seated, findUser, hp, decide_eq_true_eq] at hv
      have hvmem := QMap.mem_of_value_eq_some hv
      rw [hkept] at hvmem
      have hs := hksorted
      simp only [QMap.keys, hkept, List.map_cons, List.pairwise_cons] at hs
      rw [hkids e hemem]
      rcases List.mem_cons.mp hvmem with h | h
      · rw [← h]
      · exact le_of_lt (hs.1 v.id (List.mem_map_of_mem Prod.fst h))

/-- A user that is an agent of the room is an entry of the users map. -/
theorem mem_users_of_mem_agents {s : CRoom} {user : CServerUser}
    (h : CServerAgent.user user ∈ s.agents) : ∃ k, (k, user) ∈ s.p_ptr.users.entries := by
  rw [agents_eq] at h
  simp only [List.mem_append, List.mem_map, QMap.values, CServerAgent.user.injEq,
    and_false, exists_false, or_false, reduceCtorEq] at h
  obtain ⟨u, ⟨e, he, rfl⟩, rfl⟩ := h
  exact ⟨e.1, he⟩

end CRoom

namespace CRoom

/-- One operation keeps the robots map well formed. -/
theorem robotsWellFormed_step (s : CRoom) (op : Op)
    (h : s.p_ptr.robots.keys.Pairwise (fun a b => a < b)
      ∧ ∀ e ∈ s.p_ptr.robots.entries, e.2.id = e.1) :
    (s.step op).p_ptr.robots.keys.Pairwise (fun a b => a < b)
      ∧ ∀ e ∈ (s.step op).p_ptr.robots.entries, e.2.id = e.1 := by
  obtain ⟨h1, h2⟩ := h
  have hfilter : ∀ (r : CRoom) (keep : Nat × CServerRobot → Bool),
      r.p_ptr.robots.entries = s.p_ptr.robots.entries.filter keep →
      r.p_ptr.robots.keys.Pairwise (fun a b => a < b)
        ∧ ∀ e ∈ r.p_ptr.robots.entries, e.2.id = e.1 := by
    intro r keep hr
    refine ⟨?_, ?_⟩
    · simp only [QMap.keys, hr]
      exact List.Pairwise.sublist ((List.filter_sublist _).map _) h1
    · intro e he
      rw [hr, List.mem_filter] at he
      exact h2 e he.1
  cases op with
  | addUser user prevRoom =>
    simp only [step]
    by_cases hf : s.isFull = true
    · have : s.addUser user prevRoom = s := by
        unfold addUser; rw [if_pos hf]
      rw [this]; exact ⟨h1, h2⟩
    · rw [addUser_p_ptr s user prevRoom (by simpa using hf)]
      obtain ⟨_, g2, _⟩ := removeUser_frame s user
      rcases prevRoom with _ | _ | room
      · exact ⟨h1, h2⟩
      · simp only [g2]; exact ⟨h1, h2⟩
      · exact ⟨h1, h2⟩
  | removeUser user =>
    obtain ⟨_, g2, _⟩ := removeUser_frame s user
    simp only [step, g2]
    exact ⟨h1, h2⟩
  | addRobot robot =>
    simp only [step, addRobot_p_ptr]
    refine ⟨QMap.keys_insert_pairwise _ _ _ h1, ?_⟩
    intro e he
    rcases QMap.mem_insertEntries he with rfl | he
    · rfl
    · exact h2 e he
  | removeRobot robot => exact hfilter _ _ (removeRobot_entries s robot)
  | onGameOver =>
    have hr := (gameOverRounds s.p_ptr.robots.entries s).1
    exact hfilter (s.step Op.onGameOver) _ (by simp only [step]; rw [onGameOver_eq_rounds]; exact hr)
  | setOwner o => exact ⟨h1, h2⟩

end CRoom

/-! ## The claims -/

/-- C1 (the code at the failing input): in a new room of capacity 1, two calls
of `addRobot` seat two robots, so the occupancy 2 exceeds the capacity 1;
`addRobot` never looks at `isFull`. -/
theorem addRobot_exceeds_capacity :
    ((CRoom.create none 0 ⟨"room", 1, 10⟩ none).run
        [Op.addRobot ⟨1⟩, Op.addRobot ⟨2⟩]).capacity = 1
      ∧ ((CRoom.create none 0 ⟨"room", 1, 10⟩ none).run
        [Op.addRobot ⟨1⟩, Op.addRobot ⟨2⟩]).occupancy = 2
      ∧ ((CRoom.create none 0 ⟨"room", 1, 10⟩ none).run
        [Op.addRobot ⟨1⟩, Op.addRobot ⟨2⟩]).isFull = true := by
  decide

/-- C9: on a full room (capacity above 0 and at least that many users plus
robots seated) `addUser` returns the room as it was, whatever the user and
whatever its previous room: the users map, the robots map, the owner and the
abandoned flag are the same, and no call was made, neither `removeUser` on the
previous room nor a notification. -/
theorem addUser_full_noop (s : CRoom) (user : CServerUser) (prevRoom : Option RoomPtr)
    (hcap : 0 < s.capacity) (hfull : s.capacity ≤ (s.occupancy : Int)) :
    s.addUser user prevRoom = s
      ∧ (s.addUser user prevRoom).p_ptr.users = s.p_ptr.users
      ∧ (s.addUser user prevRoom).p_ptr.robots = s.p_ptr.robots
      ∧ (s.addUser user prevRoom).p_ptr.owner = s.p_ptr.owner
      ∧ (s.addUser user prevRoom).p_ptr.isAbandoned = s.p_ptr.isAbandoned
      ∧ (s.addUser user prevRoom).calls = s.calls := by
  have hf : s.isFull = true := by
    simp only [CRoom.isFull, CRoom.occupancy] at *
    simp only [Bool.and_eq_true, decide_eq_true_eq]
    exact ⟨hcap, by push_cast at hfull; exact hfull⟩
  have h : s.addUser user prevRoom = s := by
    unfold CRoom.addUser
    rw [if_pos hf]
  simp [h]

/-- C10: in a room of capacity 0, however many users and robots are seated,
`isFull` is false and `addUser(u)` seats `u`: `findUser(u.id)` is `u`
afterwards. -/
theorem addUser_capacity_zero (s : CRoom) (user : CServerUser) (prevRoom : Option RoomPtr)
    (hcap : s.capacity = 0) :
    s.isFull = false ∧ (s.addUser user prevRoom).findUser user.id = some user := by
  have hf : s.isFull = false := by
    simp [CRoom.isFull, hcap]
  refine ⟨hf, ?_⟩
  unfold CRoom.findUser
  rw [CRoom.addUser_p_ptr s user prevRoom hf]
  rcases prevRoom with _ | _ | room <;> simp [QMap.value_insert_self]

/-- C7: when the owner is the only seated user (robots may be seated),
`removeUser(owner)` sets the abandoned flag, and the calls it makes are the
`abandoned` signal and the `quit` of the thread: no `notify` goes to any
agent. -/
theorem removeUser_last_owner_abandons (s : CRoom) (user : CServerUser)
    (howner : s.p_ptr.owner = some user)
    (honly : s.p_ptr.users.entries = [(user.id, user)]) :
    (s.removeUser user).p_ptr.isAbandoned = true
      ∧ (s.removeUser user).calls = s.calls ++ [Call.emit Signal.abandoned, Call.threadQuit]
      ∧ ((s.removeUser user).calls.filter Call.isNotify).length
          = (s.calls.filter Call.isNotify).length := by
  have hcalls : (s.removeUser user).calls
      = s.calls ++ [Call.emit Signal.abandoned, Call.threadQuit] := by
    unfold CRoom.removeUser
    simp [QMap.remove, QMap.isEmpty, honly, howner, CRoom.disconnectAgent, CRoom.call]
  refine ⟨?_, hcalls, ?_⟩
  · rw [CRoom.removeUser_p_ptr]
    simp [QMap.remove, QMap.isEmpty, honly, howner]
  · rw [hcalls]
    simp [List.filter_append, Call.isNotify]

/-- C5 (as amended): for a timeout of 0 to 2147483 seconds, so that
`timeout * 1000` is a non-negative `int`, `broadcastRequest` over `N` targets,
whatever number of them release the semaphore in time, makes these calls in
this order: `setReplyReadySemaphore` on every target, `executeRequest` on every
target, the wait for `N` permits, which ends, then `cancelRequest` on every
target entry, so exactly `N` cancellations. Over no target, whatever the
timeout, the only thing it does is a wait for 0 permits, which succeeds at
once even when nothing was released. -/
theorem broadcastRequest_calls (s : CRoom) (targets : List CServerAgent) (timeout : Int)
    (released : Nat) (hlo : 0 ≤ timeout) (hhi : timeout ≤ 2147483) :
    (s.broadcastRequest targets timeout released).calls
        = s.calls
          ++ (targets.map Call.setReplyReadySemaphore
            ++ targets.map (fun a => Call.executeRequest a timeout)
            ++ [Call.tryAcquire targets.length (timeout * 1000)
                  (CRoom.semaphoreTryAcquire 0 targets.length released (timeout * 1000))]
            ++ targets.map Call.cancelRequest)
      ∧ CRoom.semaphoreTryAcquire 0 targets.length released (timeout * 1000)
        ≠ WaitOutcome.never
      ∧ (((s.broadcastRequest targets timeout released).calls.drop s.calls.length).filter
          Call.isCancel).length = targets.length
      ∧ ∀ (anyTimeout : Int) (anyReleased : Nat),
          (s.broadcastRequest [] anyTimeout anyReleased).calls
            = s.calls
              ++ [Call.tryAcquire 0 (CRoom.int32 (anyTimeout * 1000)) WaitOutcome.immediate] := by
  have hmsec : CRoom.int32 (timeout * 1000) = timeout * 1000 :=
    CRoom.int32_of_seconds timeout hlo hhi
  have hnever : ∀ n, CRoom.semaphoreTryAcquire 0 n released (timeout * 1000)
      ≠ WaitOutcome.never := by
    intro n
    have h0 : ¬ timeout * 1000 < 0 := by omega
    simp only [CRoom.semaphoreTryAcquire, h0, if_false]
    split_ifs <;> simp
  have h : (s.broadcastRequest targets timeout released).calls
        = s.calls
          ++ (targets.map Call.setReplyReadySemaphore
            ++ targets.map (fun a => Call.executeRequest a timeout)
            ++ [Call.tryAcquire targets.length (timeout * 1000)
                  (CRoom.semaphoreTryAcquire 0 targets.length released (timeout * 1000))]
            ++ targets.map Call.cancelRequest) := by
    unfold CRoom.broadcastRequest
    simp only [hmsec, if_neg (hnever targets.length), CRoom.foldl_call_map, CRoom.call_calls,
      List.append_assoc]
  refine ⟨h, hnever _, ?_, ?_⟩
  · rw [h, List.drop_left]
    simp only [List.filter_append, List.length_append]
    have h1 : (targets.map Call.setReplyReadySemaphore).filter Call.isCancel = [] := by
      simp [List.filter_eq_nil_iff, Call.isCancel]
    have h2 : (targets.map (fun a => Call.executeRequest a timeout)).filter Call.isCancel
        = [] := by
      simp [List.filter_eq_nil_iff, Call.isCancel]
    have h3 : (targets.map Call.cancelRequest).filter Call.isCancel
        = targets.map Call.cancelRequest := by
      simp [List.filter_eq_self, Call.isCancel]
    rw [h1, h2, h3]
    simp [Call.isCancel]
  · intro anyTimeout anyReleased
    simp [CRoom.broadcastRequest, CRoom.semaphoreTryAcquire, CRoom.call]

/-- C5 (counterexample): with timeout -1 the wait is `tryAcquire(1, -1000)`,
which Qt takes as a wait without limit; over the single target user 1, who
never replies, the call asks user 1 and then never returns, so no
`cancelRequest` is sent. -/
theorem broadcastRequest_negative_timeout_blocks :
    ((exampleRoom 4).broadcastRequest [CServerAgent.user ⟨1⟩] (-1) 0).calls
        = [Call.setReplyReadySemaphore (CServerAgent.user ⟨1⟩),
            Call.executeRequest (CServerAgent.user ⟨1⟩) (-1),
            Call.tryAcquire 1 (-1000) WaitOutcome.never]
      ∧ (((exampleRoom 4).broadcastRequest [CServerAgent.user ⟨1⟩] (-1) 0).calls.filter
          Call.isCancel).length = 0 := by
  decide

/-- C5 (as amended) at a concrete input: two targets, a timeout of 5 seconds,
one reply in time. -/
theorem broadcastRequest_calls_witness :
    ((0 : Int) ≤ 5 ∧ (5 : Int) ≤ 2147483)
      ∧ ((exampleRoom 4).broadcastRequest
          [CServerAgent.user ⟨1⟩, CServerAgent.user ⟨2⟩] 5 1).calls
        = (exampleRoom 4).calls
          ++ ([CServerAgent.user ⟨1⟩, CServerAgent.user ⟨2⟩].map Call.setReplyReadySemaphore
            ++ [CServerAgent.user ⟨1⟩, CServerAgent.user ⟨2⟩].map
                (fun a => Call.executeRequest a 5)
            ++ [Call.tryAcquire [CServerAgent.user ⟨1⟩, CServerAgent.user ⟨2⟩].length (5 * 1000)
                  (CRoom.semaphoreTryAcquire 0
                    [CServerAgent.user ⟨1⟩, CServerAgent.user ⟨2⟩].length 1 (5 * 1000))]
            ++ [CServerAgent.user ⟨1⟩, CServerAgent.user ⟨2⟩].map Call.cancelRequest) :=
  ⟨by decide,
    (broadcastRequest_calls (exampleRoom 4) [CServerAgent.user ⟨1⟩, CServerAgent.user ⟨2⟩] 5 1
      (by decide) (by decide)).1⟩

/-- What the racing call does when its semaphore holds no permit left over by
an earlier call (as on a new room): when the only `replyReady` before the
timeout comes from the target `t`, `broadcastRacingRequest` returns `t`, and
among the calls it makes `cancelRequest` goes to an agent exactly when that
agent is a target other than `t`: to each of the others, never to `t`. -/
theorem racing_single_reply_without_permit (s : CRoom) (targets : List CServerAgent)
    (timeout : Int) (t : CServerAgent)
    (hsem : s.p_ptr.racingRequestSemaphore = 0) (ht : t ∈ targets) :
    (s.broadcastRacingRequest targets timeout [t]).2 = some t
      ∧ ∃ made, (s.broadcastRacingRequest targets timeout [t]).1.calls = s.calls ++ made
        ∧ ∀ a, Call.cancelRequest a ∈ made ↔ (a ∈ targets ∧ a ≠ t) := by
  have hconn : Connection.replyReady t ∈ (s.racingRequestStart targets timeout).connections := by
    rw [CRoom.racingRequestStart_eq]
    simp only [List.mem_append, List.mem_map]
    exact Or.inr ⟨t, ht, rfl⟩
  obtain ⟨k, hk, hr⟩ := CRoom.replyReady_connected _ t hconn
  have hs0 : (s.racingRequestStart targets timeout).p_ptr.racingRequestSemaphore = 0 := by
    rw [CRoom.racingRequestStart_eq]; exact hsem
  have hwait : (s.racingRequestStart targets timeout).racingRequestWait [t]
      = (s.racingRequestStart targets timeout).afterReplies t k := by
    simp [CRoom.racingRequestWait, hs0, hr]
  have hsem1 : ((s.racingRequestStart targets timeout).afterReplies t k).p_ptr.racingRequestSemaphore
      = k := by
    simp [CRoom.afterReplies, hs0]
  have hk0 : ¬ k = 0 := by omega
  refine ⟨?_, ?_⟩
  · unfold CRoom.broadcastRacingRequest
    simp only [hwait, hs0, hsem1]
    simp [hk, CRoom.afterReplies]
  · refine ⟨targets.map (fun a => Call.executeRequest a timeout)
        ++ CRoom.cancelCalls targets t k
        ++ [Call.tryAcquire 1 (CRoom.int32 (timeout * 1000)) WaitOutcome.released], ?_, ?_⟩
    · unfold CRoom.broadcastRacingRequest
      simp only [hwait, hs0, hsem1]
      simp [hk, CRoom.afterReplies, CRoom.racingRequestStart_eq]
    · intro a
      constructor
      · intro h
        simp only [List.mem_append, List.mem_map, List.mem_singleton] at h
        rcases h with (⟨b, _, hb⟩ | h) | h
        · cases hb
        · obtain ⟨b, hb1, hb2, hb3⟩ := CRoom.mem_cancelCalls h
          cases hb3
          exact ⟨hb1, hb2⟩
        · cases h
      · rintro ⟨h1, h2⟩
        simp only [List.mem_append]
        exact Or.inl (Or.inr (CRoom.cancelRequest_mem_cancelCalls hk h1 h2))

/-- C4: in one racing call, once the `replyReady` of the candidate `first` has
been handled, `first` is the recorded winner, and `replyReady` signals of other
candidates of the call, handled afterwards in any number and order, leave the
room as it is, recorded winner included. When the semaphore held no permit at
the start, `first` is also what the call returns, however many candidates
signal after it. -/
theorem racing_first_signal_wins (s : CRoom) (targets : List CServerAgent) (timeout : Int)
    (first : CServerAgent) (later : List CServerAgent)
    (hfirst : first ∈ targets) (hlater : ∀ a ∈ later, a ∈ targets ∧ a ≠ first) :
    ((s.racingRequestStart targets timeout).replyReady first).p_ptr.racingRequestWinner
        = some first
      ∧ later.foldl CRoom.replyReady ((s.racingRequestStart targets timeout).replyReady first)
        = (s.racingRequestStart targets timeout).replyReady first
      ∧ (later.foldl CRoom.replyReady
          ((s.racingRequestStart targets timeout).replyReady first)).p_ptr.racingRequestWinner
        = some first
      ∧ (s.p_ptr.racingRequestSemaphore = 0 →
          (s.broadcastRacingRequest targets timeout (first :: later)).2 = some first) := by
  have hconn : Connection.replyReady first
      ∈ (s.racingRequestStart targets timeout).connections := by
    rw [CRoom.racingRequestStart_eq]
    simp only [List.mem_append, List.mem_map]
    exact Or.inr ⟨first, hfirst, rfl⟩
  obtain ⟨k, hk, hr⟩ := CRoom.replyReady_connected _ first hconn
  have hwin : ((s.racingRequestStart targets timeout).replyReady first).p_ptr.racingRequestWinner
      = some first := by
    rw [hr]; rfl
  have hgone : ∀ a ∈ later, Connection.replyReady a
      ∉ ((s.racingRequestStart targets timeout).replyReady first).connections := by
    intro a ha hmem
    rw [hr] at hmem
    simp only [CRoom.afterReplies, List.mem_filter, decide_eq_true_eq, List.mem_map,
      not_exists, not_and] at hmem
    refine hmem.2 a ?_ rfl
    rw [CRoom.racingRequestStart_eq]
    exact CRoom.mem_cancelled.mpr (hlater a ha)
  have hfix : ∀ (l : List CServerAgent) (r : CRoom),
      (∀ a ∈ l, Connection.replyReady a ∉ r.connections) → l.foldl CRoom.replyReady r = r := by
    intro l
    induction l with
    | nil => intro r _; rfl
    | cons a rest ih =>
      intro r h
      rw [List.foldl_cons, CRoom.replyReady_not_connected r a (h a (List.mem_cons_self a rest))]
      exact ih r (fun b hb => h b (List.mem_cons_of_mem a hb))
  have hsame := hfix later _ hgone
  refine ⟨hwin, hsame, by rw [hsame]; exact hwin, ?_⟩
  intro hsem
  have hs0 : (s.racingRequestStart targets timeout).p_ptr.racingRequestSemaphore = 0 := by
    rw [CRoom.racingRequestStart_eq]; exact hsem
  have hsem1 : ((s.racingRequestStart targets timeout).afterReplies first k).p_ptr.racingRequestSemaphore
      = k := by
    simp [CRoom.afterReplies, hs0]
  have hwait : (s.racingRequestStart targets timeout).racingRequestWait (first :: later)
      = (s.racingRequestStart targets timeout).afterReplies first k := by
    rw [CRoom.racingRequestWait, if_neg (by omega), hr]
    exact CRoom.racingRequestWait_of_permit _ _ (by omega)
  have hk0 : ¬ k = 0 := by omega
  unfold CRoom.broadcastRacingRequest
  simp only [hwait, hs0, hsem1]
  simp [hk, CRoom.afterReplies]

/-- C6 (as amended): in a room with a well-formed users map whose owner is
seated together with at least one other user, `removeUser(owner)` leaves the
old owner unseated and makes the new owner the remaining seated user with the
smallest id (`QMap::first()`), and it sends every agent then seated the
configure-room notification that carries `ownerId` with the new owner's id. -/
theorem removeUser_owner_promotes_smallest_id (s : CRoom) (owner other : CServerUser)
    (hwf : s.usersWellFormed = true)
    (howner : s.p_ptr.owner = some owner)
    (hseated : s.seated owner = true) (hother : s.seated other = true)
    (hne : other ≠ owner) :
    ∃ promoted,
      (s.removeUser owner).p_ptr.owner = some promoted
        ∧ (s.removeUser owner).seated owner = false
        ∧ (s.removeUser owner).seated promoted = true
        ∧ (∀ v, (s.removeUser owner).seated v = true → promoted.id ≤ v.id)
        ∧ ∃ made, (s.removeUser owner).calls = s.calls ++ made
          ∧ ∀ a ∈ (s.removeUser owner).agents,
              Call.notify a Command.S_COMMAND_CONFIGURE_ROOM
                (QVariant.entry "ownerId" (QVariant.uint promoted.id)) ∈ made := by
  simp only [CRoom.usersWellFormed, Bool.and_eq_true, decide_eq_true_eq, List.all_eq_true]
    at hwf
  obtain ⟨hsorted, hids⟩ := hwf
  simp only [CRoom.seated, CRoom.findUser, decide_eq_true_eq] at hseated hother
  have hmemO := QMap.mem_of_value_eq_some hseated
  have hmemX := QMap.mem_of_value_eq_some hother
  have hrem : (s.p_ptr.users.remove owner.id).2 ≠ 0 := QMap.remove_count_pos hmemO
  have hidne : other.id ≠ owner.id := by
    intro hid
    apply hne
    cases other; cases owner; simpa using hid
  have hksorted := QMap.keys_remove_pairwise s.p_ptr.users owner.id hsorted
  have hmemK : (other.id, other) ∈ (s.p_ptr.users.remove owner.id).1.entries := by
    simp only [QMap.remove, List.mem_filter]
    exact ⟨hmemX, by simpa using hidne⟩
  have hkids : ∀ e ∈ (s.p_ptr.users.remove owner.id).1.entries, e.2.id = e.1 := by
    intro e hmem
    simp only [QMap.remove, List.mem_filter] at hmem
    simpa using hids e hmem.1
  cases hkept : (s.p_ptr.users.remove owner.id).1.entries with
  | nil => rw [hkept] at hmemK; simp at hmemK
  | cons e rest =>
    have hemp : (s.p_ptr.users.remove owner.id).1.isEmpty = false := by
      simp [QMap.isEmpty, hkept]
    have hfirst : (s.p_ptr.users.remove owner.id).1.first = some e.2 := by
      simp [QMap.first, hkept]
    have hp : (s.removeUser owner).p_ptr
        = { s.p_ptr with
            users := (s.p_ptr.users.remove owner.id).1
            owner := some e.2 } := by
      rw [CRoom.removeUser_p_ptr, if_pos hrem, if_pos howner.symm, if_pos hemp, hfirst]
    have hemem : e ∈ (s.p_ptr.users.remove owner.id).1.entries := by
      rw [hkept]; exact List.mem_cons_self _ _
    refine ⟨e.2, by rw [hp], ?_, ?_, ?_, ?_⟩
    · simp only [CRoom.seated, CRoom.findUser, hp, decide_eq_false_iff_not]
      rw [QMap.value_remove_self]
      simp
    · simp only [CRoom.seated, CRoom.findUser, hp, decide_eq_true_eq]
      apply QMap.value_eq_some_of_mem hksorted
      rw [hkids e hemem]
      exact hemem
    · intro v hv
      simp only [CRoom.seated, CRoom.findUser, hp, decide_eq_true_eq] at hv
      have hvmem := QMap.mem_of_value_eq_some hv
      rw [hkept] at hvmem
      have hs := hksorted
      simp only [QMap.keys, hkept, List.map_cons, List.pairwise_cons] at hs
      rw [hkids e hemem]
      rcases List.mem_cons.mp hvmem with h | h
      · rw [← h]
      · exact le_of_lt (hs.1 v.id (List.mem_map_of_mem Prod.fst h))
    · have hcalls := CRoom.removeUser_calls_promoted s owner hrem howner hemp
      refine ⟨_, hcalls, ?_⟩
      intro a ha
      have hid : (s.removeUser owner).ownerId = e.2.id := by
        simp [CRoom.ownerId, hp]
      rw [hid]
      exact List.mem_append_left _ (List.mem_append_left _
        (List.mem_map_of_mem (fun a => Call.notify a Command.S_COMMAND_CONFIGURE_ROOM
          (QVariant.entry "ownerId" (QVariant.uint e.2.id))) ha))

/-- C2 (the code at the failing input): after a racing call that user 1 won, a
second racing call over users 2 and 3 in which nobody replies times out, yet it
returns user 1, who is not even a target, and all it does is ask the two
targets and wait: no `cancelRequest` is sent. On a new room the timed-out call
sends no `cancelRequest` either. -/
theorem broadcastRacingRequest_timeout_stale_winner :
    (exampleAfterRace.broadcastRacingRequest
        [CServerAgent.user ⟨2⟩, CServerAgent.user ⟨3⟩] 10 []).2
        = some (CServerAgent.user ⟨1⟩)
      ∧ (exampleAfterRace.broadcastRacingRequest
          [CServerAgent.user ⟨2⟩, CServerAgent.user ⟨3⟩] 10 []).1.calls
        = exampleAfterRace.calls
          ++ [Call.executeRequest (CServerAgent.user ⟨2⟩) 10,
              Call.executeRequest (CServerAgent.user ⟨3⟩) 10,
              Call.tryAcquire 1 10000 WaitOutcome.timedOut]
      ∧ ((exampleRoom 4).broadcastRacingRequest
          [CServerAgent.user ⟨2⟩, CServerAgent.user ⟨3⟩] 10 []).1.calls
        = [Call.executeRequest (CServerAgent.user ⟨2⟩) 10,
            Call.executeRequest (CServerAgent.user ⟨3⟩) 10,
            Call.tryAcquire 1 10000 WaitOutcome.timedOut] := by
  decide

/-- The racing call without leftover permit at a concrete input: on a new
room, targets user 1, user 2 and robot 1, only user 2 replies. -/
theorem racing_single_reply_without_permit_witness :
    (exampleRoom 4).p_ptr.racingRequestSemaphore = 0
      ∧ ((exampleRoom 4).broadcastRacingRequest
          [CServerAgent.user ⟨1⟩, CServerAgent.user ⟨2⟩, CServerAgent.robot ⟨1⟩] 10
          [CServerAgent.user ⟨2⟩]).2 = some (CServerAgent.user ⟨2⟩) :=
  ⟨by decide,
    (racing_single_reply_without_permit (exampleRoom 4)
      [CServerAgent.user ⟨1⟩, CServerAgent.user ⟨2⟩, CServerAgent.robot ⟨1⟩] 10
      (CServerAgent.user ⟨2⟩) (by decide) (by decide)).1⟩

/-- C4 at a concrete input: targets users 1, 2 and 3; user 2 is handled first,
then users 1 and 3. -/
theorem racing_first_signal_wins_witness :
    (List.foldl CRoom.replyReady
        (((exampleRoom 4).racingRequestStart
          [CServerAgent.user ⟨1⟩, CServerAgent.user ⟨2⟩, CServerAgent.user ⟨3⟩] 10).replyReady
            (CServerAgent.user ⟨2⟩))
        [CServerAgent.user ⟨1⟩, CServerAgent.user ⟨3⟩]).p_ptr.racingRequestWinner
      = some (CServerAgent.user ⟨2⟩) :=
  (racing_first_signal_wins (exampleRoom 4)
    [CServerAgent.user ⟨1⟩, CServerAgent.user ⟨2⟩, CServerAgent.user ⟨3⟩] 10
    (CServerAgent.user ⟨2⟩) [CServerAgent.user ⟨1⟩, CServerAgent.user ⟨3⟩]
    (by decide) (by decide)).2.2.1

/-- C6 (counterexample): users 1, 3 and 2 join in this order and user 1 is the
owner; when user 1 is removed, the remaining users in joining order are 3 then
2, yet the new owner is user 2, the smaller id, not user 3, who joined
first. -/
theorem removeUser_owner_not_earliest_joined :
    exampleThreeUsers.p_ptr.owner = some ⟨1⟩
      ∧ exampleThreeUsers.seated ⟨1⟩ = true
      ∧ exampleThreeUsers.seated ⟨3⟩ = true
      ∧ (exampleRoom 0).joinOrder []
          [Op.addUser ⟨1⟩ none, Op.setOwner ⟨1⟩, Op.addUser ⟨3⟩ none, Op.addUser ⟨2⟩ none,
            Op.removeUser ⟨1⟩] = [⟨3⟩, ⟨2⟩]
      ∧ (exampleThreeUsers.removeUser ⟨1⟩).p_ptr.owner = some ⟨2⟩
      ∧ (exampleThreeUsers.removeUser ⟨1⟩).p_ptr.owner ≠ some ⟨3⟩ := by
  decide

/-- C6 (as amended) at a concrete input: the room of users 1, 3, 2 with owner
1; the promoted user has the smallest remaining id. -/
theorem removeUser_owner_promotes_smallest_id_witness :
    (exampleThreeUsers.usersWellFormed = true ∧ exampleThreeUsers.p_ptr.owner = some ⟨1⟩
        ∧ exampleThreeUsers.seated ⟨1⟩ = true ∧ exampleThreeUsers.seated ⟨3⟩ = true)
      ∧ ∃ promoted,
        (exampleThreeUsers.removeUser ⟨1⟩).p_ptr.owner = some promoted
          ∧ (exampleThreeUsers.removeUser ⟨1⟩).seated ⟨1⟩ = false
          ∧ (exampleThreeUsers.removeUser ⟨1⟩).seated promoted = true
          ∧ (∀ v, (exampleThreeUsers.removeUser ⟨1⟩).seated v = true → promoted.id ≤ v.id)
          ∧ ∃ made, (exampleThreeUsers.removeUser ⟨1⟩).calls = exampleThreeUsers.calls ++ made
            ∧ ∀ a ∈ (exampleThreeUsers.removeUser ⟨1⟩).agents,
                Call.notify a Command.S_COMMAND_CONFIGURE_ROOM
                  (QVariant.entry "ownerId" (QVariant.uint promoted.id)) ∈ made :=
  ⟨by decide,
    removeUser_owner_promotes_smallest_id exampleThreeUsers ⟨1⟩ ⟨3⟩
      (by decide) (by decide) (by decide) (by decide) (by decide)⟩

/-- C7 at a concrete input: user 1 owns the room and sits there with robot 5
only. -/
theorem removeUser_last_owner_abandons_witness :
    (exampleLoneOwner.p_ptr.owner = some ⟨1⟩
        ∧ exampleLoneOwner.p_ptr.users.entries = [(1, ⟨1⟩)]
        ∧ exampleLoneOwner.p_ptr.robots.size = 1)
      ∧ (exampleLoneOwner.removeUser ⟨1⟩).p_ptr.isAbandoned = true
      ∧ (exampleLoneOwner.removeUser ⟨1⟩).calls
          = exampleLoneOwner.calls ++ [Call.emit Signal.abandoned, Call.threadQuit]
      ∧ ((exampleLoneOwner.removeUser ⟨1⟩).calls.filter Call.isNotify).length
          = (exampleLoneOwner.calls.filter Call.isNotify).length :=
  ⟨by decide, removeUser_last_owner_abandons exampleLoneOwner ⟨1⟩ (by decide) (by decide)⟩

/-- C8 (counterexample): user 1 joins, is made owner while seated, and is
removed; the room is abandoned and the owner is still user 1, who is no longer
seated. -/
theorem owner_dangling_after_abandon :
    (exampleRoom 4).ownersSeated
        [Op.addUser ⟨1⟩ none, Op.setOwner ⟨1⟩, Op.removeUser ⟨1⟩] = true
      ∧ ((exampleRoom 4).run
          [Op.addUser ⟨1⟩ none, Op.setOwner ⟨1⟩, Op.removeUser ⟨1⟩]).p_ptr.owner = some ⟨1⟩
      ∧ ((exampleRoom 4).run
          [Op.addUser ⟨1⟩ none, Op.setOwner ⟨1⟩, Op.removeUser ⟨1⟩]).findUser 1 = none
      ∧ ((exampleRoom 4).run
          [Op.addUser ⟨1⟩ none, Op.setOwner ⟨1⟩, Op.removeUser ⟨1⟩]).p_ptr.users.entries = []
      ∧ ((exampleRoom 4).run
          [Op.addUser ⟨1⟩ none, Op.setOwner ⟨1⟩, Op.removeUser ⟨1⟩]).ownerSeatedOrNull = false
      ∧ ((exampleRoom 4).run
          [Op.addUser ⟨1⟩ none, Op.setOwner ⟨1⟩, Op.removeUser ⟨1⟩]).isAbandoned = true := by
  decide

/-- C8 (as amended): in every state reached from a newly created room by
`addUser`, `removeUser`, `addRobot`, `removeRobot`, game-over cleanup and
`setOwner` called with a user seated at that moment, as long as the room has
not been abandoned the owner is null or one of the seated users. -/
theorem owner_seated_unless_abandoned (server : Option CServer) (roomId : Nat)
    (settings : CRoomSettings) (winner : Option CServerAgent) (ops : List Op)
    (hops : (CRoom.create server roomId settings winner).ownersSeated ops = true)
    (hlive : ((CRoom.create server roomId settings winner).run ops).isAbandoned = false) :
    ((CRoom.create server roomId settings winner).run ops).ownerSeatedOrNull = true := by
  obtain ⟨_, _, h3⟩ := CRoom.ownerInvariant_run ops _
    (CRoom.ownerInvariant_create server roomId settings winner) hops
  unfold CRoom.ownerSeatedOrNull
  cases ho : ((CRoom.create server roomId settings winner).run ops).p_ptr.owner with
  | none => rfl
  | some o =>
    simp only [CRoom.seated, CRoom.findUser, decide_eq_true_eq]
    exact h3 hlive o ho

/-- C8 (as amended) at a concrete input: users 1 and 2 join, user 1 is made
owner and leaves; the room lives on and its owner, user 2, is seated. -/
theorem owner_seated_unless_abandoned_witness :
    ((exampleRoom 4).run
        [Op.addUser ⟨1⟩ none, Op.setOwner ⟨1⟩, Op.addUser ⟨2⟩ none,
          Op.removeUser ⟨1⟩]).p_ptr.owner = some ⟨2⟩
      ∧ ((exampleRoom 4).run
        [Op.addUser ⟨1⟩ none, Op.setOwner ⟨1⟩, Op.addUser ⟨2⟩ none,
          Op.removeUser ⟨1⟩]).ownerSeatedOrNull = true :=
  ⟨by decide,
    owner_seated_unless_abandoned none 0 ⟨"room", 4, 10⟩ none
      [Op.addUser ⟨1⟩ none, Op.setOwner ⟨1⟩, Op.addUser ⟨2⟩ none, Op.removeUser ⟨1⟩]
      (by decide) (by decide)⟩

/-- C9 at a concrete input: the room of capacity 2 holds user 1 and robot 7;
user 2 arrives from room 9. -/
theorem addUser_full_noop_witness :
    (0 < exampleFullRoom.capacity ∧ exampleFullRoom.capacity ≤ (exampleFullRoom.occupancy : Int))
      ∧ exampleFullRoom.addUser ⟨2⟩ (some (RoomPtr.other 9)) = exampleFullRoom :=
  ⟨by decide,
    (addUser_full_noop exampleFullRoom ⟨2⟩ (some (RoomPtr.other 9)) (by decide) (by decide)).1⟩

/-- C10 at a concrete input: a room of capacity 0 with users 1, 2, 3 seated
takes user 4. -/
theorem addUser_capacity_zero_witness :
    exampleThreeUsers.capacity = 0
      ∧ exampleThreeUsers.isFull = false
      ∧ (exampleThreeUsers.addUser ⟨4⟩ none).findUser 4 = some ⟨4⟩ :=
  ⟨by decide, addUser_capacity_zero exampleThreeUsers ⟨4⟩ none (by decide)⟩

/-- The capacity bound that the code does keep: from a new room of capacity
`c > 0`, along every run of `addUser`, `removeUser`, `removeRobot`, game-over
cleanup and `setOwner`, with `addRobot` called only on a room that is not
full, the occupancy is at most `c` after every step. -/
theorem occupancy_bounded_when_robots_guarded (server : Option CServer) (roomId : Nat)
    (settings : CRoomSettings) (winner : Option CServerAgent) (ops : List Op)
    (hc : 0 < settings.capacity)
    (hg : (CRoom.create server roomId settings winner).robotsGuarded ops = true) :
    ∀ r ∈ (CRoom.create server roomId settings winner).states ops,
      (r.occupancy : Int) ≤ settings.capacity := by
  intro r hr
  have h0 : ((CRoom.create server roomId settings winner).occupancy : Int)
      ≤ settings.capacity := by
    simp only [CRoom.occupancy, CRoom.create, QMap.size, QMap.empty]
    exact le_of_lt hc
  exact (CRoom.occupancy_states ops settings.capacity hc
    (CRoom.create server roomId settings winner) rfl h0 hg r hr).2

/-- The capacity bound at a concrete input: capacity 2, a robot and a user
join, a second user is turned away. -/
theorem occupancy_bounded_when_robots_guarded_witness :
    ((exampleRoom 2).run
        [Op.addRobot ⟨7⟩, Op.addUser ⟨1⟩ none, Op.addUser ⟨2⟩ none]).occupancy = 2
      ∧ ∀ r ∈ (exampleRoom 2).states
          [Op.addRobot ⟨7⟩, Op.addUser ⟨1⟩ none, Op.addUser ⟨2⟩ none],
        (r.occupancy : Int) ≤ 2 :=
  ⟨by decide,
    occupancy_bounded_when_robots_guarded none 0 ⟨"room", 2, 10⟩ none
      [Op.addRobot ⟨7⟩, Op.addUser ⟨1⟩ none, Op.addUser ⟨2⟩ none] (by decide) (by decide)⟩

/-- Every room reached from a new one has a well-formed users map, so the
precondition of the promotion theorem holds wherever the room can be. -/
theorem usersWellFormed_run (server : Option CServer) (roomId : Nat)
    (settings : CRoomSettings) (winner : Option CServerAgent) (ops : List Op)
    (hops : (CRoom.create server roomId settings winner).ownersSeated ops = true) :
    ((CRoom.create server roomId settings winner).run ops).usersWellFormed = true := by
  obtain ⟨h1, h2, _⟩ := CRoom.ownerInvariant_run ops _
    (CRoom.ownerInvariant_create server roomId settings winner) hops
  simp only [CRoom.usersWellFormed, Bool.and_eq_true, decide_eq_true_eq, List.all_eq_true]
  exact ⟨h1, fun e he => h2 e he⟩

/-- C12: while the attached engine is running, `setGameLogic(e)` returns the
room as it was, so `gameLogic()` is still the previous engine and no
connection to `e` was made; when no engine is attached, or the attached one
is not running, `gameLogic()` is `e` afterwards. -/
theorem setGameLogic_rejected_while_running (s : CRoom) (e : CAbstractGameLogic)
    (isRunning : CAbstractGameLogic → Bool) :
    (∀ attached, s.p_ptr.gameLogic = some attached → isRunning attached = true →
        s.setGameLogic e isRunning = s
          ∧ (s.setGameLogic e isRunning).gameLogic = some attached
          ∧ (s.setGameLogic e isRunning).connections = s.connections)
      ∧ (s.p_ptr.gameLogic = none → (s.setGameLogic e isRunning).gameLogic = some e)
      ∧ (∀ attached, s.p_ptr.gameLogic = some attached → isRunning attached = false →
          (s.setGameLogic e isRunning).gameLogic = some e) := by
  refine ⟨?_, ?_, ?_⟩
  · intro attached h1 h2
    have h : s.setGameLogic e isRunning = s := by
      simp [CRoom.setGameLogic, h1, h2]
    rw [h]
    exact ⟨rfl, h1, rfl⟩
  · intro h1
    simp [CRoom.setGameLogic, CRoom.gameLogic, h1]
  · intro attached h1 h2
    simp [CRoom.setGameLogic, CRoom.gameLogic, h1, h2]

/-- C12 at a concrete input: engine 1 is attached and running, engine 2 is
offered. -/
theorem setGameLogic_rejected_while_running_witness :
    (((exampleRoom 4).setGameLogic ⟨1⟩ (fun _ => false)).setGameLogic ⟨2⟩
        (fun g => decide (g = ⟨1⟩))).gameLogic = some ⟨1⟩ :=
  ((setGameLogic_rejected_while_running ((exampleRoom 4).setGameLogic ⟨1⟩ (fun _ => false))
    ⟨2⟩ (fun g => decide (g = ⟨1⟩))).1 ⟨1⟩ (by decide) (by decide)).2.1

/-- C20 (the code at the failing input): engine 1 is attached and idle;
`setGameLogic(engine 2)` attaches engine 2, and the engine it sends
`deleteLater` to is engine 2 itself, the one it has just been given, while
engine 1, the replaced one, gets no `deleteLater`. -/
theorem setGameLogic_deletes_new_engine :
    ((exampleRoom 4).setGameLogic ⟨1⟩ (fun _ => false)).gameLogic = some ⟨1⟩
      ∧ (((exampleRoom 4).setGameLogic ⟨1⟩ (fun _ => false)).setGameLogic ⟨2⟩
          (fun _ => false)).gameLogic = some ⟨2⟩
      ∧ (((exampleRoom 4).setGameLogic ⟨1⟩ (fun _ => false)).setGameLogic ⟨2⟩
          (fun _ => false)).calls
        = ((exampleRoom 4).setGameLogic ⟨1⟩ (fun _ => false)).calls
          ++ [Call.gameLogicDeleteLater ⟨2⟩, Call.moveToThread ⟨2⟩]
      ∧ Call.gameLogicDeleteLater ⟨1⟩
        ∉ (((exampleRoom 4).setGameLogic ⟨1⟩ (fun _ => false)).setGameLogic ⟨2⟩
            (fun _ => false)).calls := by
  decide

/-- C11: `startGame` never touches the private record (roster and owner
included). Among the calls it makes, the signal `aboutToStart` that starts the
engine appears if and only if an engine is attached, is not running, and every
seated agent other than the owner is ready; the calls are then the start-game
notification to every seated agent followed by that signal. Without an idle
engine it makes no call at all; with an idle engine and some other agent not
ready it sends the system message once to every seated agent and nothing
else. -/
theorem startGame_starts_iff (s : CRoom) (isRunning : CAbstractGameLogic → Bool)
    (ready : CServerAgent → Bool) :
    (s.startGame isRunning ready).p_ptr = s.p_ptr
      ∧ ∃ made, (s.startGame isRunning ready).calls = s.calls ++ made
        ∧ (Call.emit Signal.aboutToStart ∈ made
            ↔ (s.engineIdle isRunning = true ∧ s.othersReady ready = true))
        ∧ (s.engineIdle isRunning = true → s.othersReady ready = true →
            made = s.agents.map (fun a =>
                Call.notify a Command.S_COMMAND_START_GAME QVariant.null)
              ++ [Call.emit Signal.aboutToStart])
        ∧ (s.engineIdle isRunning = false → made = [])
        ∧ (s.engineIdle isRunning = true → s.othersReady ready = false →
            made = s.agents.map (fun a =>
              Call.notify a Command.S_COMMAND_SPEAK
                (QVariant.entry "message" (QVariant.string CRoom.notReadyMessage)))) := by
  have hfilter : s.agents.filter (fun a => decide (some a ≠ (none : Option CServerAgent)))
      = s.agents := by
    simp [List.filter_eq_self]
  cases hg : s.p_ptr.gameLogic with
  | none =>
    have h : s.startGame isRunning ready = s := by simp [CRoom.startGame, hg]
    have hidle : s.engineIdle isRunning = false := by simp [CRoom.engineIdle, hg]
    rw [h]
    exact ⟨rfl, [], by simp, by simp [hidle], by simp [hidle], fun _ => rfl, by simp [hidle]⟩
  | some g =>
    by_cases hrun : isRunning g = true
    · have h : s.startGame isRunning ready = s := by simp [CRoom.startGame, hg, hrun]
      have hidle : s.engineIdle isRunning = false := by simp [CRoom.engineIdle, hg, hrun]
      rw [h]
      exact ⟨rfl, [], by simp, by simp [hidle], by simp [hidle], fun _ => rfl, by simp [hidle]⟩
    · have hrun' : isRunning g = false := by simpa using hrun
      have hidle : s.engineIdle isRunning = true := by simp [CRoom.engineIdle, hg, hrun']
      cases hready : s.othersReady ready with
      | true =>
        have hm : CRoom.meetsNotReady s.owner ready s.agents = false := by
          rw [CRoom.meetsNotReady_eq_not_othersReady, hready]; rfl
        have h : s.startGame isRunning ready
            = (s.broadcastCommand Command.S_COMMAND_START_GAME).call
                (Call.emit Signal.aboutToStart) := by
          simp [CRoom.startGame, hg, hrun', hm]
        rw [h]
        refine ⟨by simp [CRoom.broadcastCommand],
          s.agents.map (fun a => Call.notify a Command.S_COMMAND_START_GAME QVariant.null)
            ++ [Call.emit Signal.aboutToStart], ?_, ?_, ?_, ?_, ?_⟩
        · simp only [CRoom.broadcastCommand, CRoom.broadcastNotification_eq, CRoom.call_calls,
            List.append_assoc, hfilter]
        · simp [hidle]
        · intro _ _; rfl
        · intro h0; rw [hidle] at h0; cases h0
        · intro _ h0; cases h0
      | false =>
        have hm : CRoom.meetsNotReady s.owner ready s.agents = true := by
          rw [CRoom.meetsNotReady_eq_not_othersReady, hready]; rfl
        have h : s.startGame isRunning ready
            = s.broadcastSystemMessage CRoom.notReadyMessage := by
          simp [CRoom.startGame, hg, hrun', hm, CRoom.notReadyMessage]
        rw [h]
        refine ⟨by simp [CRoom.broadcastSystemMessage],
          s.agents.map (fun a => Call.notify a Command.S_COMMAND_SPEAK
            (QVariant.entry "message" (QVariant.string CRoom.notReadyMessage))), ?_, ?_, ?_, ?_, ?_⟩
        · simp only [CRoom.broadcastSystemMessage, CRoom.broadcastNotification_eq, hfilter]
        · simp
        · intro _ h0; cases h0
        · intro h0; rw [hidle] at h0; cases h0
        · intro _ _; rfl

/-- C16 (as amended): the summary `briefIntroduction` of any room has as `id`
the room's own id when a server is attached and the room is not its lobby, and
0 when the room is the lobby or when no server is attached; `userNum` is the
number of seated users plus the number of seated robots, `name` and `capacity`
are those of the settings, and `ownerId` is the id of the owner, or 0 without
owner. -/
theorem briefIntroduction_fields (s : CRoom) :
    (s.isLobby = true → s.briefIntroduction.id = 0)
      ∧ (s.p_ptr.server = none → s.briefIntroduction.id = 0)
      ∧ (s.p_ptr.server ≠ none → s.isLobby = false → s.briefIntroduction.id = s.p_ptr.id)
      ∧ s.briefIntroduction.userNum = s.p_ptr.users.size + s.p_ptr.robots.size
      ∧ s.briefIntroduction.name = s.p_ptr.settings.name
      ∧ s.briefIntroduction.capacity = s.p_ptr.settings.capacity
      ∧ (∀ o, s.p_ptr.owner = some o → s.briefIntroduction.ownerId = o.id)
      ∧ (s.p_ptr.owner = none → s.briefIntroduction.ownerId = 0) := by
  refine ⟨?_, ?_, ?_, rfl, rfl, rfl, ?_, ?_⟩
  · intro h
    cases hs : s.p_ptr.server with
    | none => simp [CRoom.briefIntroduction, hs]
    | some server =>
      simp only [CRoom.isLobby, hs, decide_eq_true_eq] at h
      simp [CRoom.briefIntroduction, hs, h]
  · intro hs
    simp [CRoom.briefIntroduction, hs]
  · intro hs h
    cases hs' : s.p_ptr.server with
    | none => exact absurd hs' hs
    | some server =>
      simp only [CRoom.isLobby, hs', decide_eq_false_iff_not] at h
      simp [CRoom.briefIntroduction, hs', h]
  · intro o ho
    simp [CRoom.briefIntroduction, CRoom.ownerId, ho]
  · intro ho
    simp [CRoom.briefIntroduction, CRoom.ownerId, ho]

/-- C16 (counterexample): room number 5 has no server attached, so it is not
the lobby of any server, yet the `id` of its summary is 0 and not 5. -/
theorem briefIntroduction_id_without_server :
    (CRoom.create none 5 ⟨"room", 4, 10⟩ none).isLobby = false
      ∧ (CRoom.create none 5 ⟨"room", 4, 10⟩ none).p_ptr.id = 5
      ∧ (CRoom.create none 5 ⟨"room", 4, 10⟩ none).briefIntroduction.id = 0 := by
  decide

/-- C16 (as amended) at a concrete input: room 5 of a server whose lobby is
room 0 shows its own id. -/
theorem briefIntroduction_fields_witness :
    (CRoom.create (some ⟨0⟩) 5 ⟨"room", 4, 10⟩ none).briefIntroduction.id = 5 :=
  (briefIntroduction_fields (CRoom.create (some ⟨0⟩) 5 ⟨"room", 4, 10⟩ none)).2.2.1
    (by decide) (by decide)

/-- C18: `addRobot` and `removeRobot` leave the owner, the abandoned flag and
the users map as they were, for every room and robot; `removeRobot` of a robot
under whose id nothing is seated returns the room as it was, so it changes
nothing and makes no call. -/
theorem robots_leave_users_alone (s : CRoom) (robot : CServerRobot) :
    ((s.addRobot robot).p_ptr.owner = s.p_ptr.owner
        ∧ (s.addRobot robot).p_ptr.isAbandoned = s.p_ptr.isAbandoned
        ∧ (s.addRobot robot).p_ptr.users = s.p_ptr.users)
      ∧ ((s.removeRobot robot).p_ptr.owner = s.p_ptr.owner
        ∧ (s.removeRobot robot).p_ptr.isAbandoned = s.p_ptr.isAbandoned
        ∧ (s.removeRobot robot).p_ptr.users = s.p_ptr.users)
      ∧ (s.findRobot robot.id = none →
          s.removeRobot robot = s ∧ (s.removeRobot robot).calls = s.calls) := by
  refine ⟨?_, ?_, ?_⟩
  · rw [CRoom.addRobot_p_ptr]
    exact ⟨rfl, rfl, rfl⟩
  · rw [CRoom.removeRobot_p_ptr]
    split_ifs
    · exact ⟨rfl, rfl, rfl⟩
    · exact ⟨rfl, rfl, rfl⟩
  · intro h
    have h0 := QMap.remove_count_zero h
    have : s.removeRobot robot = s := by
      unfold CRoom.removeRobot
      simp [h0]
    rw [this]
    exact ⟨rfl, rfl⟩

/-- C18 at a concrete input: robot 9 is not seated in the room of user 1 and
robot 5. -/
theorem robots_leave_users_alone_witness :
    exampleLoneOwner.findRobot 9 = none ∧ exampleLoneOwner.removeRobot ⟨9⟩ = exampleLoneOwner :=
  ⟨by decide, ((robots_leave_users_alone exampleLoneOwner ⟨9⟩).2.2 (by decide)).1⟩

/-- C13: start from a room as its constructor or a game-over cleanup leaves
it, and let other operations except the cleanup come between the calls; then
call number `k + 1` of `newRobotName` returns the name built from the letter at
position `k mod 26` of `A..Z`. In particular the first call after a cleanup
returns the name built from `A`, whatever the code was before. -/
theorem newRobotName_cycle (start : CRoom) (between : Nat → List Op) (k : Nat)
    (hstart : (∃ server roomId settings winner,
        start = CRoom.create server roomId settings winner) ∨ ∃ r : CRoom, start = r.onGameOver)
    (hbetween : ∀ i, Op.onGameOver ∉ between i) :
    (∃ letter, CRoom.robotLetters[k % 26]? = some letter
        ∧ ((start.afterRobotNames between k).run (between k)).newRobotName.2
          = "Robot " ++ String.singleton letter)
      ∧ ∀ r : CRoom, r.onGameOver.newRobotName.2 = "Robot " ++ String.singleton 'A' := by
  have h65 : start.p_ptr.robotNameCode = 65 := by
    rcases hstart with ⟨server, roomId, settings, winner, rfl⟩ | ⟨r, rfl⟩
    · rfl
    · exact CRoom.onGameOver_robotNameCode r
  have hcode := CRoom.afterRobotNames_code start between h65 hbetween k
  have hrun := CRoom.run_robotNameCode (between k) (hbetween k) (start.afterRobotNames between k)
  refine ⟨⟨Char.ofNat (65 + k % 26), CRoom.robotLetters_get _ (Nat.mod_lt _ (by decide)), ?_⟩, ?_⟩
  · simp only [CRoom.newRobotName, hrun, hcode, CRoom.robotName]
  · intro r
    simp only [CRoom.newRobotName, CRoom.onGameOver_robotNameCode, CRoom.robotName]

/-- C13 at a concrete input: a new room, an `addRobot` before every call; call
number 28 returns the name built from the letter at position 1. -/
theorem newRobotName_cycle_witness :
    (Op.onGameOver ∉ [Op.addRobot ⟨3⟩])
      ∧ ∃ letter, CRoom.robotLetters[27 % 26]? = some letter
        ∧ (((exampleRoom 4).afterRobotNames (fun _ => [Op.addRobot ⟨3⟩]) 27).run
            [Op.addRobot ⟨3⟩]).newRobotName.2 = "Robot " ++ String.singleton letter :=
  ⟨by decide,
    (newRobotName_cycle (exampleRoom 4) (fun _ => [Op.addRobot ⟨3⟩]) 27
      (Or.inl ⟨none, 0, ⟨"room", 4, 10⟩, none, rfl⟩)
      (fun _ => (by decide : Op.onGameOver ∉ [Op.addRobot ⟨3⟩]))).1⟩

/-- C14: on a room with a server attached and a well-formed robots map, the
game-over cleanup leaves the robots map empty; the `killRobot` calls recorded
afterwards are those recorded before followed by one call per key of the
robots map as it was, each key once (the keys are distinct), and no other id;
the users map and the owner are as before. -/
theorem onGameOver_clears_robots (s : CRoom) (server : CServer)
    (hserver : s.p_ptr.server = some server) (hwf : s.robotsWellFormed = true) :
    s.onGameOver.p_ptr.robots.entries = []
      ∧ s.onGameOver.calls.filterMap Call.killedId
        = s.calls.filterMap Call.killedId ++ s.p_ptr.robots.keys
      ∧ s.p_ptr.robots.keys.Nodup
      ∧ s.onGameOver.p_ptr.users = s.p_ptr.users
      ∧ s.onGameOver.p_ptr.owner = s.p_ptr.owner := by
  simp only [CRoom.robotsWellFormed, Bool.and_eq_true, decide_eq_true_eq, List.all_eq_true]
    at hwf
  obtain ⟨hsorted, hids⟩ := hwf
  obtain ⟨h1, _, h3⟩ := CRoom.gameOverRounds s.p_ptr.robots.entries s
  obtain ⟨g1, g2, _, _, _⟩ := CRoom.onGameOver_frame s
  refine ⟨?_, ?_, ?_, g1, g2⟩
  · rw [CRoom.onGameOver_eq_rounds]
    simp only [h1, List.filter_eq_nil_iff, decide_eq_true_eq, not_not, List.mem_map]
    intro e he
    exact ⟨e, he, hids e he⟩
  · rw [CRoom.onGameOver_eq_rounds]
    exact h3 (by simp [hserver])
  · exact hsorted.imp (fun h => Nat.ne_of_lt h)

/-- C14 at a concrete input: room 1 with a server, user 1 and robots 5 and
6. -/
theorem onGameOver_clears_robots_witness :
    (exampleWithServer.p_ptr.server = some ⟨0⟩ ∧ exampleWithServer.p_ptr.robots.keys = [5, 6])
      ∧ exampleWithServer.onGameOver.p_ptr.robots.entries = []
      ∧ exampleWithServer.onGameOver.calls.filterMap Call.killedId
        = exampleWithServer.calls.filterMap Call.killedId ++ exampleWithServer.p_ptr.robots.keys
      ∧ exampleWithServer.p_ptr.robots.keys.Nodup
      ∧ exampleWithServer.onGameOver.p_ptr.users = exampleWithServer.p_ptr.users
      ∧ exampleWithServer.onGameOver.p_ptr.owner = exampleWithServer.p_ptr.owner :=
  ⟨by decide, onGameOver_clears_robots exampleWithServer ⟨0⟩ (by decide) (by decide)⟩

/-- C17: when `addUser(u)` goes through (the room is not full), the users map
is well formed and `u->room()` is this room whenever `u` is seated here, the
first call after the eviction from the previous room sends `u` the user list:
the introductions of the first `min(n, 50)` agents of `agents()` as it is at
that moment, users first and then robots, `n` being their number. The list has
at most 50 entries and does not contain `u`, and no other user list is sent. -/
theorem addUser_user_list (s : CRoom) (user : CServerUser) (prevRoom : Option RoomPtr)
    (hfull : s.isFull = false) (hwf : s.usersWellFormed = true)
    (hroom : s.seated user = true → prevRoom = some RoomPtr.self) :
    (s.addUser user prevRoom).calls
        = (s.exitPreviousRoom user prevRoom).calls
          ++ ([Call.notify (CServerAgent.user user) Command.S_COMMAND_SET_USER_LIST
                (QVariant.agentInfoList ((s.exitPreviousRoom user prevRoom).agents.take 50)),
              Call.setRoom (CServerAgent.user user),
              Call.notify (CServerAgent.user user) Command.S_COMMAND_ENTER_ROOM
                (QVariant.roomInfo (s.addUser user prevRoom).briefIntroduction),
              Call.notify (CServerAgent.user user) Command.S_COMMAND_CONFIGURE_ROOM
                (QVariant.config (s.addUser user prevRoom).p_ptr.settings)]
            ++ ((s.addUser user prevRoom).agents.filter
                  (fun a => decide (some a ≠ some (CServerAgent.user user)))).map
                (fun a => Call.notify a Command.S_COMMAND_ADD_USER
                  (QVariant.agentInfo (CServerAgent.user user)))
            ++ [Call.emit (Signal.userAdded user)])
      ∧ (s.exitPreviousRoom user prevRoom).agents
        = (s.exitPreviousRoom user prevRoom).p_ptr.users.values.map CServerAgent.user
          ++ (s.exitPreviousRoom user prevRoom).p_ptr.robots.values.map CServerAgent.robot
      ∧ ((s.exitPreviousRoom user prevRoom).agents.take 50).length
        = min (s.exitPreviousRoom user prevRoom).agents.length 50
      ∧ ((s.exitPreviousRoom user prevRoom).agents.take 50).length ≤ 50
      ∧ CServerAgent.user user ∉ (s.exitPreviousRoom user prevRoom).agents.take 50 := by
  refine ⟨CRoom.addUser_calls s user prevRoom hfull, CRoom.agents_eq _, ?_, ?_, ?_⟩
  · rw [List.length_take, Nat.min_comm]
  · rw [List.length_take]
    exact Nat.min_le_left _ _
  · intro hmem
    obtain ⟨k, hk⟩ := CRoom.mem_users_of_mem_agents (List.mem_of_mem_take hmem)
    simp only [CRoom.usersWellFormed, Bool.and_eq_true, decide_eq_true_eq, List.all_eq_true]
      at hwf
    obtain ⟨hsorted, hids⟩ := hwf
    by_cases hself : prevRoom = some RoomPtr.self
    · subst hself
      simp only [CRoom.exitPreviousRoom, CRoom.removeUser_users_entries, List.mem_filter,
        decide_eq_true_eq] at hk
      exact hk.2 (hids _ hk.1).symm
    · have hp : (s.exitPreviousRoom user prevRoom).p_ptr = s.p_ptr := by
        rcases prevRoom with _ | _ | room
        · rfl
        · exact absurd rfl hself
        · rfl
      rw [hp] at hk
      have hid : user.id = k := hids _ hk
      subst hid
      have hv := QMap.value_eq_some_of_mem hsorted hk
      exact hself (hroom (by simp [CRoom.seated, CRoom.findUser, hv]))

/-- C17 at a concrete input: user 4, coming from room 9, joins the room of
users 1, 2 and 3 and is sent their three introductions. -/
theorem addUser_user_list_witness :
    (exampleThreeUsers.isFull = false ∧ exampleThreeUsers.usersWellFormed = true
        ∧ exampleThreeUsers.seated ⟨4⟩ = false)
      ∧ ((exampleThreeUsers.exitPreviousRoom ⟨4⟩ (some (RoomPtr.other 9))).agents.take 50
          = [CServerAgent.user ⟨1⟩, CServerAgent.user ⟨2⟩, CServerAgent.user ⟨3⟩])
      ∧ CServerAgent.user ⟨4⟩
        ∉ (exampleThreeUsers.exitPreviousRoom ⟨4⟩ (some (RoomPtr.other 9))).agents.take 50 :=
  ⟨by decide, by decide,
    (addUser_user_list exampleThreeUsers ⟨4⟩ (some (RoomPtr.other 9)) (by decide) (by decide)
      (by decide)).2.2.2.2⟩

/-- C19: in a room with a well-formed users map whose owner is seated
together with at least one other user, `removeUser(owner)` puts one user in
the owner field: a user seated after the removal, the one with the smallest
id among them. Any other such room whose removal leaves the same users seated
promotes the same user. Every agent seated after the removal is sent both the
`ownerId` property with the new owner's id and the remove-user notification
with the id of the old owner. -/
theorem removeUser_owner_promotes_one (s : CRoom) (owner other : CServerUser)
    (hwf : s.usersWellFormed = true)
    (howner : s.p_ptr.owner = some owner)
    (hseated : s.seated owner = true) (hother : s.seated other = true)
    (hne : other ≠ owner) :
    ∃ promoted,
      (s.removeUser owner).p_ptr.owner = some promoted
        ∧ (s.removeUser owner).seated promoted = true
        ∧ (∀ v, (s.removeUser owner).seated v = true → promoted.id ≤ v.id)
        ∧ (∀ (s2 : CRoom) (owner2 other2 : CServerUser),
            s2.usersWellFormed = true → s2.p_ptr.owner = some owner2 →
            s2.seated owner2 = true → s2.seated other2 = true → other2 ≠ owner2 →
            (∀ v, (s2.removeUser owner2).seated v = (s.removeUser owner).seated v) →
            (s2.removeUser owner2).p_ptr.owner = some promoted)
        ∧ ∃ made, (s.removeUser owner).calls = s.calls ++ made
          ∧ ∀ a ∈ (s.removeUser owner).agents,
              Call.notify a Command.S_COMMAND_CONFIGURE_ROOM
                  (QVariant.entry "ownerId" (QVariant.uint promoted.id)) ∈ made
                ∧ Call.notify a Command.S_COMMAND_REMOVE_USER
                  (QVariant.uint owner.id) ∈ made := by
  obtain ⟨w, hrem, hemp, hp, hgone, hw, hmin⟩ :=
    CRoom.removeUser_promotes s owner other hwf howner hseated hother hne
  refine ⟨w, by rw [hp], hw, hmin, ?_, ?_⟩
  · intro s2 owner2 other2 hwf2 howner2 hseated2 hother2 hne2 hsame
    obtain ⟨w2, _, _, hp2, _, hw2, hmin2⟩ :=
      CRoom.removeUser_promotes s2 owner2 other2 hwf2 howner2 hseated2 hother2 hne2
    have h1 : w.id ≤ w2.id := hmin w2 (by rw [← hsame]; exact hw2)
    have h2 : w2.id ≤ w.id := hmin2 w (by rw [hsame]; exact hw)
    have : w2 = w := by
      cases w; cases w2
      simp only [CServerUser.mk.injEq]
      simp only at h1 h2
      omega
    rw [hp2, this]
  · have hcalls := CRoom.removeUser_calls_promoted s owner hrem howner hemp
    have hid : (s.removeUser owner).ownerId = w.id := by
      simp [CRoom.ownerId, hp]
    rw [hid] at hcalls
    refine ⟨_, hcalls, ?_⟩
    intro a ha
    have hane : a ≠ CServerAgent.user owner := by
      rintro rfl
      obtain ⟨k, hk⟩ := CRoom.mem_users_of_mem_agents ha
      rw [CRoom.removeUser_users_entries, List.mem_filter] at hk
      simp only [CRoom.usersWellFormed, Bool.and_eq_true, decide_eq_true_eq,
        List.all_eq_true] at hwf
      have hkid := hwf.2 _ hk.1
      simp only [decide_eq_true_eq] at hk
      exact hk.2 hkid.symm
    constructor
    · exact List.mem_append_left _ (List.mem_append_left _
        (List.mem_map_of_mem (fun a => Call.notify a Command.S_COMMAND_CONFIGURE_ROOM
          (QVariant.entry "ownerId" (QVariant.uint w.id))) ha))
    · apply List.mem_append_left
      apply List.mem_append_right
      apply List.mem_map_of_mem (fun a => Call.notify a Command.S_COMMAND_REMOVE_USER
        (QVariant.uint owner.id))
      rw [List.mem_filter]
      exact ⟨ha, by simpa using hane⟩

/-- C19 at a concrete input: users 1 (owner), 3 and 2 are seated; removing
user 1 promotes a user seated afterwards with the smallest id. -/
theorem removeUser_owner_promotes_one_witness :
    (exampleThreeUsers.removeUser ⟨1⟩).p_ptr.owner = some ⟨2⟩
      ∧ ∃ promoted,
        (exampleThreeUsers.removeUser ⟨1⟩).p_ptr.owner = some promoted
          ∧ (exampleThreeUsers.removeUser ⟨1⟩).seated promoted = true
          ∧ (∀ v, (exampleThreeUsers.removeUser ⟨1⟩).seated v = true → promoted.id ≤ v.id) :=
  ⟨by decide,
    (removeUser_owner_promotes_one exampleThreeUsers ⟨1⟩ ⟨3⟩
      (by decide) (by decide) (by decide) (by decide) (by decide)).imp
      (fun _ h => ⟨h.1, h.2.1, h.2.2.1⟩)⟩

/-- C15 (counterexample): on a new room of capacity 4, after `addUser` of user
1 and of user 2 the owner is still null, not user 1; when user 1 is removed
the owner stays null and no `ownerId` property is sent (the only call to an
agent is the remove-user notification to user 2); when user 2 is removed the
room is not abandoned. -/
theorem scenario_addUser_sets_no_owner :
    ((exampleRoom 4).run [Op.addUser ⟨1⟩ none, Op.addUser ⟨2⟩ none]).p_ptr.owner = none
      ∧ ((exampleRoom 4).run
          [Op.addUser ⟨1⟩ none, Op.addUser ⟨2⟩ none, Op.removeUser ⟨1⟩]).p_ptr.owner = none
      ∧ ((exampleRoom 4).run
          [Op.addUser ⟨1⟩ none, Op.addUser ⟨2⟩ none, Op.removeUser ⟨1⟩]).calls
        = ((exampleRoom 4).run [Op.addUser ⟨1⟩ none, Op.addUser ⟨2⟩ none]).calls
          ++ [Call.notify (CServerAgent.user ⟨2⟩) Command.S_COMMAND_REMOVE_USER
                (QVariant.uint 1),
              Call.emit (Signal.userRemoved ⟨1⟩)]
      ∧ ((exampleRoom 4).run
          [Op.addUser ⟨1⟩ none, Op.addUser ⟨2⟩ none, Op.removeUser ⟨1⟩,
            Op.removeUser ⟨2⟩]).isAbandoned = false := by
  decide

/-- C15 (as amended): on a new room of capacity 4 where user 1 is made owner
with `setOwner` once it has joined, after `addUser` of user 1 and of user 2
the owner is user 1; when user 1 is then removed the owner is user 2 and the
`ownerId` property has been sent (to user 2, followed by the remove-user
notification); when user 2 is then removed the room is abandoned and the only
calls are the signal `abandoned` and the `quit` of the thread, no
notification. -/
theorem scenario_with_setOwner :
    ((exampleRoom 4).run
        [Op.addUser ⟨1⟩ none, Op.setOwner ⟨1⟩, Op.addUser ⟨2⟩ none]).p_ptr.owner = some ⟨1⟩
      ∧ ((exampleRoom 4).run
          [Op.addUser ⟨1⟩ none, Op.setOwner ⟨1⟩, Op.addUser ⟨2⟩ none,
            Op.removeUser ⟨1⟩]).p_ptr.owner = some ⟨2⟩
      ∧ ((exampleRoom 4).run
          [Op.addUser ⟨1⟩ none, Op.setOwner ⟨1⟩, Op.addUser ⟨2⟩ none,
            Op.removeUser ⟨1⟩]).calls
        = ((exampleRoom 4).run
            [Op.addUser ⟨1⟩ none, Op.setOwner ⟨1⟩, Op.addUser ⟨2⟩ none]).calls
          ++ [Call.notify (CServerAgent.user ⟨2⟩) Command.S_COMMAND_CONFIGURE_ROOM
                (QVariant.entry "ownerId" (QVariant.uint 2)),
              Call.notify (CServerAgent.user ⟨2⟩) Command.S_COMMAND_REMOVE_USER
                (QVariant.uint 1),
              Call.emit (Signal.userRemoved ⟨1⟩)]
      ∧ ((exampleRoom 4).run
          [Op.addUser ⟨1⟩ none, Op.setOwner ⟨1⟩, Op.addUser ⟨2⟩ none,
            Op.removeUser ⟨1⟩, Op.removeUser ⟨2⟩]).isAbandoned = true
      ∧ ((exampleRoom 4).run
          [Op.addUser ⟨1⟩ none, Op.setOwner ⟨1⟩, Op.addUser ⟨2⟩ none,
            Op.removeUser ⟨1⟩, Op.removeUser ⟨2⟩]).calls
        = ((exampleRoom 4).run
            [Op.addUser ⟨1⟩ none, Op.setOwner ⟨1⟩, Op.addUser ⟨2⟩ none,
              Op.removeUser ⟨1⟩]).calls
          ++ [Call.emit Signal.abandoned, Call.threadQuit] := by
  decide

/-- Every room reached from a new one by `addUser`, `removeUser`, `addRobot`,
`removeRobot`, game-over cleanup and `setOwner` has a well-formed robots map,
so the precondition of the cleanup theorem holds wherever the room can be. -/
theorem robotsWellFormed_run (server : Option CServer) (roomId : Nat)
    (settings : CRoomSettings) (winner : Option CServerAgent) (ops : List Op) :
    ((CRoom.create server roomId settings winner).run ops).robotsWellFormed = true := by
  have h : ∀ (l : List Op) (s : CRoom),
      (s.p_ptr.robots.keys.Pairwise (fun a b => a < b)
        ∧ ∀ e ∈ s.p_ptr.robots.entries, e.2.id = e.1) →
      ((s.run l).p_ptr.robots.keys.Pairwise (fun a b => a < b)
        ∧ ∀ e ∈ (s.run l).p_ptr.robots.entries, e.2.id = e.1) := by
    intro l
    induction l with
    | nil => intro s hs; exact hs
    | cons op rest ih =>
      intro s hs
      exact ih (s.step op) (CRoom.robotsWellFormed_step s op hs)
  obtain ⟨h1, h2⟩ := h ops (CRoom.create server roomId settings winner)
    ⟨by simp [CRoom.create, QMap.keys, QMap.empty], by simp [CRoom.create, QMap.empty]⟩
  simp only [CRoom.robotsWellFormed, Bool.and_eq_true, decide_eq_true_eq, List.all_eq_true]
  exact ⟨h1, fun e he => h2 e he⟩

/-- C3 (the code at the failing input): user 1 wins two racing calls over
users 1 and 2 in a row, each time as the only agent to reply. The first call
leaves user 1 connected, the second connects it again, so its one reply runs
the slot twice and releases two permits, of which the call takes one. A third
racing call over users 2 and 3, in which only user 2 replies, then finds the
spare permit: `tryAcquire` succeeds at once and the call returns user 1, who
is not a target, instead of user 2, and user 3 gets no `cancelRequest`. -/
theorem broadcastRacingRequest_leftover_permit :
    ((exampleRoom 4).broadcastRacingRequest
        [CServerAgent.user ⟨1⟩, CServerAgent.user ⟨2⟩] 10 [CServerAgent.user ⟨1⟩]).2
        = some (CServerAgent.user ⟨1⟩)
      ∧ (exampleAfterRace.broadcastRacingRequest
          [CServerAgent.user ⟨1⟩, CServerAgent.user ⟨2⟩] 10 [CServerAgent.user ⟨1⟩]).2
        = some (CServerAgent.user ⟨1⟩)
      ∧ exampleAfterTwoRaces.p_ptr.racingRequestSemaphore = 1
      ∧ (exampleAfterTwoRaces.broadcastRacingRequest
          [CServerAgent.user ⟨2⟩, CServerAgent.user ⟨3⟩] 10 [CServerAgent.user ⟨2⟩]).2
        = some (CServerAgent.user ⟨1⟩)
      ∧ (exampleAfterTwoRaces.broadcastRacingRequest
          [CServerAgent.user ⟨2⟩, CServerAgent.user ⟨3⟩] 10 [CServerAgent.user ⟨2⟩]).1.calls
        = exampleAfterTwoRaces.calls
          ++ [Call.executeRequest (CServerAgent.user ⟨2⟩) 10,
              Call.executeRequest (CServerAgent.user ⟨3⟩) 10,
              Call.tryAcquire 1 10000 WaitOutcome.immediate] := by
  decide

end Cardirector
